import Mathlib

/-!
Verification of the PixelForge python image service core: detection
consistency reconciliation, non-maximum suppression, crop geometry and
sheet layout, shallowly embedded from `python-service` sources.

Detector backends (OpenCV HOG / cascade calls), the file system and image
decoding are external collaborators; they enter the model as explicit
oracle parameters (`Except`-valued outcomes), so every embedded function
is total and the error paths of the python code become visible values.
Python floats are modelled by exact rationals, `int()` truncation by
`pyInt`, and `//` floor division by `Int.fdiv`.
-/

namespace PixelForge

/-- Detection kinds, from `models.DetectionType`. -/
inductive DetectionType
  | face
  | person
  deriving DecidableEq, Repr

/-- Integer bounding box `(x, y, width, height)`, from `models.BoundingBox`. -/
structure BoundingBox where
  x : ℤ
  y : ℤ
  width : ℤ
  height : ℤ
  deriving DecidableEq, Repr

/-- One detection, from `models.DetectionResult`; confidence is a python
float, modelled as an exact rational. -/
structure DetectionResult where
  type : DetectionType
  confidence : ℚ
  bounding_box : BoundingBox
  deriving DecidableEq, Repr

/-- Python `int()` applied to a real value: truncation toward zero. -/
def pyInt (q : ℚ) : ℤ :=
  if 0 ≤ q then ⌊q⌋ else -⌊-q⌋

theorem pyInt_of_nonneg {q : ℚ} (h : 0 ≤ q) : pyInt q = ⌊q⌋ := by
  simp [pyInt, h]

theorem pyInt_nonneg {q : ℚ} (h : 0 ≤ q) : 0 ≤ pyInt q := by
  rw [pyInt_of_nonneg h]
  exact Int.floor_nonneg.mpr h

/-- Stable insertion used by `sortDescBy`: the new element `x` is placed
before the first element whose key is strictly smaller, hence after every
earlier element with an equal key. -/
def insertDescBy (key : α → ℚ) (x : α) : List α → List α
  | [] => [x]
  | b :: bs => if key b < key x then x :: b :: bs else b :: insertDescBy key x bs

/-- Stable sort by key, descending: models python
`sorted(xs, key=key, reverse=True)` and the `std::stable_sort` by
descending score inside OpenCV's NMS routine.  Elements with equal keys
keep their original relative order. -/
def sortDescBy (key : α → ℚ) (l : List α) : List α :=
  l.foldl (fun acc x => insertDescBy key x acc) []

theorem insertDescBy_perm (key : α → ℚ) (x : α) (l : List α) :
    List.Perm (insertDescBy key x l) (x :: l) := by
  induction l with
  | nil => simp [insertDescBy]
  | cons b bs ih =>
    simp only [insertDescBy]
    by_cases h : key b < key x
    · simp [h]
    · simp only [h, if_false]
      exact (ih.cons b).trans (List.Perm.swap x b bs)

theorem sortDescBy_aux_perm (key : α → ℚ) (l acc : List α) :
    List.Perm (l.foldl (fun acc x => insertDescBy key x acc) acc) (acc ++ l) := by
  induction l generalizing acc with
  | nil => simp
  | cons x xs ih =>
    simp only [List.foldl_cons]
    refine (ih (insertDescBy key x acc)).trans ?_
    have h1 : List.Perm (insertDescBy key x acc ++ xs) ((x :: acc) ++ xs) :=
      (insertDescBy_perm key x acc).append_right xs
    exact h1.trans List.perm_middle.symm

theorem sortDescBy_perm (key : α → ℚ) (l : List α) :
    List.Perm (sortDescBy key l) l := by
  simpa [sortDescBy] using sortDescBy_aux_perm key l []

theorem mem_sortDescBy (key : α → ℚ) (l : List α) (x : α) :
    x ∈ sortDescBy key l ↔ x ∈ l :=
  (sortDescBy_perm key l).mem_iff

theorem length_sortDescBy (key : α → ℚ) (l : List α) :
    (sortDescBy key l).length = l.length :=
  (sortDescBy_perm key l).length_eq

/-- The descending-key relation established by `sortDescBy`. -/
def keyGE (key : α → ℚ) (a b : α) : Prop := key b ≤ key a

theorem sorted_insertDescBy (key : α → ℚ) (x : α) (l : List α)
    (h : List.Sorted (keyGE key) l) :
    List.Sorted (keyGE key) (insertDescBy key x l) := by
  induction l with
  | nil => simp [insertDescBy]
  | cons b bs ih =>
    simp only [insertDescBy]
    rcases List.sorted_cons.mp h with ⟨hb, hbs⟩
    by_cases hk : key b < key x
    · rw [if_pos hk]
      refine List.sorted_cons.mpr ⟨?_, h⟩
      intro c hc
      rcases List.mem_cons.mp hc with h1 | h1
      · subst h1
        exact le_of_lt hk
      · exact le_trans (hb c h1) (le_of_lt hk)
    · rw [if_neg hk]
      refine List.sorted_cons.mpr ⟨?_, ih hbs⟩
      intro c hc
      have hcx : c ∈ x :: bs := (insertDescBy_perm key x bs).mem_iff.mp hc
      rcases List.mem_cons.mp hcx with h1 | h1
      · subst h1
        exact le_of_not_lt hk
      · exact hb c h1

theorem sorted_sortDescBy (key : α → ℚ) (l : List α) :
    List.Sorted (keyGE key) (sortDescBy key l) := by
  suffices h : ∀ acc, List.Sorted (keyGE key) acc →
      List.Sorted (keyGE key) (l.foldl (fun acc x => insertDescBy key x acc) acc) by
    exact h [] (by simp)
  induction l with
  | nil => intro acc hacc; simpa using hacc
  | cons x xs ih =>
    intro acc hacc
    exact ih (insertDescBy key x acc) (sorted_insertDescBy key x acc hacc)

/-- Intersection over union of two bounding boxes, from
`DetectionProcessor._calculate_iou` (the same rectangle-overlap formula is
used by the OpenCV NMS routine). -/
def calculate_iou (box1 box2 : BoundingBox) : ℚ :=
  let x1 := max box1.x box2.x
  let y1 := max box1.y box2.y
  let x2 := min (box1.x + box1.width) (box2.x + box2.width)
  let y2 := min (box1.y + box1.height) (box2.y + box2.height)
  if x2 ≤ x1 ∨ y2 ≤ y1 then 0
  else
    let intersection := (x2 - x1) * (y2 - y1)
    let area1 := box1.width * box1.height
    let area2 := box2.width * box2.height
    let union := area1 + area2 - intersection
    if 0 < union then (intersection : ℚ) / (union : ℚ) else 0

/-- Greedy suppression pass of OpenCV `cv2.dnn.NMSBoxes` on candidates
already sorted by descending score: keep the head, drop every later
candidate whose IoU with it exceeds the threshold, recurse.  A candidate
therefore survives exactly when its IoU with every previously kept
candidate is at most the threshold, matching the library loop. -/
def nmsGreedy (iouThr : ℚ) : List (ℕ × BoundingBox) → List ℕ
  | [] => []
  | (i, b) :: rest =>
    i :: nmsGreedy iouThr (rest.filter (fun p => calculate_iou b p.2 ≤ iouThr))
  termination_by l => l.length
  decreasing_by
    simp only [List.length_cons]
    exact Nat.lt_succ_of_le (List.length_filter_le _ _)

/-- The OpenCV `cv2.dnn.NMSBoxes(boxes, scores, score_threshold,
nms_threshold)` collaborator: drop candidates with score at or below the
score threshold, stable-sort by descending score (ties keep input order),
then run the greedy suppression; returns surviving indices in descending
score order. -/
def cvNMSBoxes (boxes : List BoundingBox) (scores : List ℚ)
    (scoreThr iouThr : ℚ) : List ℕ :=
  let cands := ((boxes.zip scores).enum).filter (fun p => scoreThr < p.2.2)
  let sorted := sortDescBy (fun p => p.2.2) cands
  nmsGreedy iouThr (sorted.map (fun p => (p.1, p.2.1)))

/-- `DetectionProcessor._apply_nms`: lists of at most one detection are
returned unchanged; otherwise the OpenCV NMS indices (score threshold 0)
are bounds-filtered and mapped back to detections. -/
def apply_nms (detections : List DetectionResult) (overlap_threshold : ℚ) :
    List DetectionResult :=
  if detections.length ≤ 1 then detections
  else
    let boxes := detections.map (fun d => d.bounding_box)
    let confidences := detections.map (fun d => d.confidence)
    let indices := cvNMSBoxes boxes confidences 0 overlap_threshold
    if indices ≠ [] then
      (indices.filter (fun i => i < detections.length)).filterMap
        (fun i => detections[i]?)
    else []

/-- `DetectionProcessor._remove_overlapping_detections`: NMS applied
independently per detection kind with IoU threshold `0.25`. -/
def remove_overlapping_detections (detections : List DetectionResult) :
    List DetectionResult :=
  if detections.length ≤ 1 then detections
  else
    let face_detections := detections.filter (fun d => d.type = DetectionType.face)
    let person_detections := detections.filter (fun d => d.type = DetectionType.person)
    apply_nms face_detections (1/4) ++ apply_nms person_detections (1/4)

/-- `DetectionProcessor._ensure_logical_consistency`: if faces already do
not outnumber persons, no-op; else if there are no persons, drop all
faces; else keep only the `count(persons)` highest-confidence faces
(python's stable `sorted(..., reverse=True)`). -/
def ensure_logical_consistency (face_detections person_detections : List DetectionResult) :
    List DetectionResult × List DetectionResult :=
  if face_detections.length ≤ person_detections.length then
    (face_detections, person_detections)
  else if person_detections.length = 0 ∧ 0 < face_detections.length then
    ([], person_detections)
  else
    let sorted_faces := sortDescBy (fun d => d.confidence) face_detections
    (sorted_faces.take person_detections.length, person_detections)

/-! ### Candidate consolidator: `FaceDetector._merge_overlapping_faces` -/

/-- A raw face candidate `[x, y, w, h]` as handled by the face detector. -/
structure FaceRect where
  x : ℤ
  y : ℤ
  w : ℤ
  h : ℤ
  deriving DecidableEq, Repr

def FaceRect.area (r : FaceRect) : ℤ := r.w * r.h

/-- Overlap area of two candidate rectangles, clamped at zero per axis
exactly as the numpy code of `_merge_overlapping_faces` does. -/
def rectInter (a b : FaceRect) : ℤ :=
  max 0 (min (a.x + a.w) (b.x + b.w) - max a.x b.x) *
    max 0 (min (a.y + a.h) (b.y + b.h) - max a.y b.y)

/-- Union area `area(A) + area(B) - area(A∩B)`. -/
def rectUnion (a b : FaceRect) : ℤ := a.area + b.area - rectInter a b

/-- The overlap score computed inside `_merge_overlapping_faces`:
`intersection / (union + 1e-6)`. -/
def mergeIoU (a b : FaceRect) : ℚ :=
  (rectInter a b : ℚ) / ((rectUnion a b : ℚ) + 1/1000000)

/-- Exact intersection-over-union of two candidate rectangles (the
quantity the specification's merge rule speaks about). -/
def rectIoU (a b : FaceRect) : ℚ :=
  if 0 < rectUnion a b then (rectInter a b : ℚ) / (rectUnion a b : ℚ) else 0

/-- Greedy loop of `_merge_overlapping_faces` on candidates already
sorted by descending area: keep the head, drop every remaining candidate
whose `mergeIoU` with it reaches the threshold, recurse. -/
def mergeGreedy (overlap_threshold : ℚ) : List FaceRect → List FaceRect
  | [] => []
  | r :: rest =>
    r :: mergeGreedy overlap_threshold
      (rest.filter (fun s => mergeIoU r s < overlap_threshold))
  termination_by l => l.length
  decreasing_by
    simp only [List.length_cons]
    exact Nat.lt_succ_of_le (List.length_filter_le _ _)

/-- `FaceDetector._merge_overlapping_faces` with its default threshold
`0.2`: sort candidates by area descending, then greedily keep maxima. -/
def merge_overlapping_faces (faces : List FaceRect) : List FaceRect :=
  if faces = [] then []
  else mergeGreedy (1/5) (sortDescBy (fun r => (r.area : ℚ)) faces)

/-! ### Cross-type consistency engine: targeted secondary person search -/

/-- First index of the maximum element, as computed by `np.argmax`. -/
def argmaxIdx : List ℚ → ℕ
  | [] => 0
  | [_] => 0
  | x :: y :: rest =>
    let j := argmaxIdx (y :: rest)
    if (y :: rest).getD j 0 ≤ x then 0 else j + 1

/-- Outcome of the HOG `detectMultiScale` call made inside the targeted
secondary search: either the raised exception (swallowed by the python
`try`) or the rectangle and weight arrays it returned. -/
def HogOutcome : Type := Except Unit (List (ℤ × ℤ × ℤ × ℤ) × List ℚ)

/-- `DetectionProcessor._search_person_around_face`: compute the body
search region below and around the face, give up on an empty region, run
the (oracle) HOG detector, take its best candidate and accept it only if
the face sits in the top 40% of the candidate body.  Any detector
exception (`Except.error`) yields `none` — the python `except` swallows
it. -/
def search_person_around_face (image_width image_height : ℤ)
    (face : DetectionResult) (hog_outcome : HogOutcome) :
    Option DetectionResult :=
  let face_box := face.bounding_box
  let estimated_body_height := face_box.height * 6
  let estimated_body_width := face_box.width * 2
  let search_x := max 0 (face_box.x - Int.fdiv estimated_body_width 4)
  let search_y := max 0 (face_box.y - Int.fdiv face_box.height 2)
  let search_w := min (image_width - search_x) estimated_body_width
  let search_h := min (image_height - search_y) estimated_body_height
  if search_w ≤ 0 ∨ search_h ≤ 0 then none
  else
    match hog_outcome with
    | Except.error _ => none
    | Except.ok (rects, weights) =>
      if rects = [] then none
      else
        let best_idx := if weights ≠ [] then argmaxIdx weights else 0
        match rects[best_idx]? with
        | none => none
        | some (x, y, w, h) =>
          let abs_x := search_x + x
          let abs_y := search_y + y
          if abs_y ≤ face_box.y ∧
              (face_box.y : ℚ) ≤ (abs_y : ℚ) + (h : ℚ) * (2/5) then
            some { type := DetectionType.person, confidence := 2/5,
                   bounding_box := { x := abs_x, y := abs_y, width := w, height := h } }
          else none

/-- `DetectionProcessor._enhance_person_detection_around_faces`: for each
face whose centre lies in no existing person box (person height stretched
by 1.2), run the targeted secondary search; accepted bodies are
deduplicated by IoU > 0.3 against existing and already-added bodies. -/
def enhance_person_detection_around_faces (image_width image_height : ℤ)
    (face_detections existing_person_detections : List DetectionResult)
    (hog : DetectionResult → HogOutcome) : List DetectionResult :=
  face_detections.foldl (fun enhanced face =>
    let face_center_x := face.bounding_box.x + Int.fdiv face.bounding_box.width 2
    let face_center_y := face.bounding_box.y + Int.fdiv face.bounding_box.height 2
    let has_corresponding_person := existing_person_detections.any (fun person =>
      person.bounding_box.x ≤ face_center_x ∧
      face_center_x ≤ person.bounding_box.x + person.bounding_box.width ∧
      person.bounding_box.y ≤ face_center_y ∧
      (face_center_y : ℚ) ≤ (person.bounding_box.y : ℚ) +
        (person.bounding_box.height : ℚ) * (6/5))
    if has_corresponding_person then enhanced
    else
      match search_person_around_face image_width image_height face (hog face) with
      | none => enhanced
      | some person_candidate =>
        let is_duplicate := (existing_person_detections ++ enhanced).any (fun e =>
          3/10 < calculate_iou person_candidate.bounding_box e.bounding_box)
        if is_duplicate then enhanced else enhanced ++ [person_candidate])
    []

/-! ### `DetectionProcessor.process_detection_request` -/

/-- `models.DetectionRequest` (the fields the processor reads). -/
structure DetectionRequest where
  image_path : String
  detection_types : List DetectionType
  confidence_threshold : ℚ

/-- `models.DetectionResponse`; `image_width`/`image_height` are the two
entries of the python `image_dimensions` dict. -/
structure DetectionResponse where
  image_path : String
  detections : List DetectionResult
  image_width : ℤ
  image_height : ℤ
  deriving DecidableEq, Repr

/-- External collaborators of one detection request: the file system
check, the image decode, the two detector calls (each may raise, which is
an `Except.error`), and the per-face HOG call of the secondary search. -/
structure DetectionEnv where
  path_exists : Bool
  image_dims : Option (ℤ × ℤ)
  face_outcome : Except Unit (List DetectionResult)
  person_outcome : Except Unit (List DetectionResult)
  hog : DetectionResult → HogOutcome

/-- Detection half of the `try:` body of `process_detection_request`:
path check, image load, per-kind detection and confidence filtering, and
the faces-vs-persons enhancement inside the person branch.  Any raised
exception is the `Except.error` case; the value is `all_detections`
together with the image dimensions. -/
def detection_stage (env : DetectionEnv) (request : DetectionRequest) :
    Except Unit (List DetectionResult × ℤ × ℤ) :=
  if env.path_exists = false then Except.error ()
  else
    match env.image_dims with
    | none => Except.error ()
    | some (width, height) =>
      match (if DetectionType.face ∈ request.detection_types
             then env.face_outcome else Except.ok []) with
      | Except.error e => Except.error e
      | Except.ok raw_faces =>
        let face_detections :=
          if DetectionType.face ∈ request.detection_types
          then raw_faces.filter (fun d => request.confidence_threshold ≤ d.confidence)
          else []
        match (if DetectionType.person ∈ request.detection_types
               then env.person_outcome else Except.ok []) with
        | Except.error e => Except.error e
        | Except.ok raw_persons =>
          let person_detections0 :=
            if DetectionType.person ∈ request.detection_types
            then raw_persons.filter (fun d => request.confidence_threshold ≤ d.confidence)
            else []
          let person_detections :=
            if DetectionType.person ∈ request.detection_types ∧
                person_detections0.length < face_detections.length then
              person_detections0 ++ enhance_person_detection_around_faces
                width height face_detections person_detections0 env.hog
            else person_detections0
          Except.ok (face_detections ++ person_detections, width, height)

/-- Tail of the `try:` body: the post-NMS strict-consistency enforcement
(lines 126–138 of `detection_processor.py`), applied only when the
processor was built with `enforce_consistency=True` and faces survived
the NMS. -/
def apply_consistency (enforce_consistency : Bool)
    (filtered_detections : List DetectionResult) : List DetectionResult :=
  let final_faces :=
    filtered_detections.filter (fun d => d.type = DetectionType.face)
  let final_people :=
    filtered_detections.filter (fun d => d.type = DetectionType.person)
  if enforce_consistency = true ∧ final_faces ≠ [] then
    let fp := ensure_logical_consistency final_faces final_people
    let other_detections := filtered_detections.filter
      (fun d => d.type ≠ DetectionType.face ∧ d.type ≠ DetectionType.person)
    fp.1 ++ fp.2 ++ other_detections
  else filtered_detections

/-- The `try:` body of `process_detection_request`: detection, global
NMS, then the optional strict-consistency enforcement. -/
def process_detection_core (env : DetectionEnv) (request : DetectionRequest)
    (enforce_consistency : Bool) :
    Except Unit (List DetectionResult × ℤ × ℤ) :=
  (detection_stage env request).map (fun r =>
    (apply_consistency enforce_consistency (remove_overlapping_detections r.1),
      r.2.1, r.2.2))

/-- `process_detection_request`: the `except Exception` handler turns any
failure into an empty response with zero image dimensions. -/
def process_detection_request (env : DetectionEnv) (request : DetectionRequest)
    (enforce_consistency : Bool) : DetectionResponse :=
  match process_detection_core env request enforce_consistency with
  | Except.ok (dets, width, height) =>
    { image_path := request.image_path, detections := dets,
      image_width := width, image_height := height }
  | Except.error _ =>
    { image_path := request.image_path, detections := [],
      image_width := 0, image_height := 0 }

/-! ### Crop geometry planner: `ImageProcessor.calculate_crop_coordinates` -/

/-- `models.CropStrategy`. -/
inductive CropStrategy
  | center
  | center_faces
  | preserve_all
  deriving DecidableEq, Repr

/-- `ImageProcessor._center_on_detections`: confidence-times-area
weighted centroid of the detections, crop positioned around it. -/
def center_on_detections (detections : List DetectionResult)
    (crop_width crop_height img_width img_height : ℤ) : ℤ × ℤ :=
  if detections = [] then
    (Int.fdiv (img_width - crop_width) 2, Int.fdiv (img_height - crop_height) 2)
  else
    let step := fun (acc : ℚ × ℚ × ℚ) (d : DetectionResult) =>
      let bbox := d.bounding_box
      let weight := d.confidence * ((bbox.width * bbox.height : ℤ) : ℚ)
      let center_x := bbox.x + Int.fdiv bbox.width 2
      let center_y := bbox.y + Int.fdiv bbox.height 2
      (acc.1 + (center_x : ℚ) * weight, acc.2.1 + (center_y : ℚ) * weight,
        acc.2.2 + weight)
    let totals := detections.foldl step (0, 0, 0)
    let center_x :=
      if 0 < totals.2.2 then pyInt (totals.1 / totals.2.2) else Int.fdiv img_width 2
    let center_y :=
      if 0 < totals.2.2 then pyInt (totals.2.1 / totals.2.2) else Int.fdiv img_height 2
    (center_x - Int.fdiv crop_width 2, center_y - Int.fdiv crop_height 2)

/-- `ImageProcessor._preserve_all_detections`: centre the crop on the
bounding box of all detections; when they fit, shift the crop (never
resize) so it covers them, otherwise keep the centred position. -/
def preserve_all_detections (detections : List DetectionResult)
    (crop_width crop_height img_width img_height : ℤ) : ℤ × ℤ :=
  match detections with
  | [] => (Int.fdiv (img_width - crop_width) 2, Int.fdiv (img_height - crop_height) 2)
  | d :: ds =>
    let min_x := ds.foldl (fun m e => min m e.bounding_box.x) d.bounding_box.x
    let min_y := ds.foldl (fun m e => min m e.bounding_box.y) d.bounding_box.y
    let max_x := ds.foldl (fun m e => max m (e.bounding_box.x + e.bounding_box.width))
      (d.bounding_box.x + d.bounding_box.width)
    let max_y := ds.foldl (fun m e => max m (e.bounding_box.y + e.bounding_box.height))
      (d.bounding_box.y + d.bounding_box.height)
    let center_x := Int.fdiv (min_x + max_x) 2
    let center_y := Int.fdiv (min_y + max_y) 2
    let x := center_x - Int.fdiv crop_width 2
    let y := center_y - Int.fdiv crop_height 2
    let detection_width := max_x - min_x
    let detection_height := max_y - min_y
    if crop_width < detection_width ∨ crop_height < detection_height then (x, y)
    else
      let x := if min_x < x then min_x else x
      let y := if min_y < y then min_y else y
      let x := if x + crop_width < max_x then max_x - crop_width else x
      let y := if y + crop_height < max_y then max_y - crop_height else y
      (x, y)

/-- `ImageProcessor.calculate_crop_coordinates`: choose the largest crop
of the target ratio that fits, position it by strategy, then clamp into
the image. -/
def calculate_crop_coordinates (img_width img_height : ℤ)
    (ratio_width ratio_height : ℤ) (detections : List DetectionResult)
    (strategy : CropStrategy) : BoundingBox :=
  let target_ratio : ℚ := (ratio_width : ℚ) / (ratio_height : ℚ)
  let current_ratio : ℚ := (img_width : ℚ) / (img_height : ℚ)
  let dims :=
    if target_ratio < current_ratio then
      (pyInt ((img_height : ℚ) * target_ratio), img_height)
    else
      (img_width, pyInt ((img_width : ℚ) / target_ratio))
  let crop_width := min dims.1 img_width
  let crop_height := min dims.2 img_height
  let pos :=
    if strategy = CropStrategy.center ∨ detections = [] then
      (Int.fdiv (img_width - crop_width) 2, Int.fdiv (img_height - crop_height) 2)
    else if strategy = CropStrategy.center_faces then
      let faces := detections.filter (fun d => d.type = DetectionType.face)
      let persons := detections.filter (fun d => d.type = DetectionType.person)
      let target_detections := if faces ≠ [] then faces else persons
      if target_detections ≠ [] then
        center_on_detections target_detections crop_width crop_height
          img_width img_height
      else
        (Int.fdiv (img_width - crop_width) 2, Int.fdiv (img_height - crop_height) 2)
    else
      preserve_all_detections detections crop_width crop_height
        img_width img_height
  let x := max 0 (min pos.1 (img_width - crop_width))
  let y := max 0 (min pos.2 (img_height - crop_height))
  { x := x, y := y, width := crop_width, height := crop_height }

/-! ### Sheet layout planner: `composition.sheet_composer.SheetComposer` -/

/-- `models.GridLayout` (validated to `[1,10]` at the request boundary). -/
structure GridLayout where
  rows : ℕ
  columns : ℕ
  deriving DecidableEq, Repr

/-- `models.SheetOrientation`. -/
inductive SheetOrient
  | portrait
  | landscape
  deriving DecidableEq, Repr

/-- A4 page width at 300 DPI, `SheetComposer.A4_WIDTH_PX`. -/
def A4_WIDTH_PX : ℕ := 2480

/-- A4 page height at 300 DPI, `SheetComposer.A4_HEIGHT_PX`. -/
def A4_HEIGHT_PX : ℕ := 3508

/-- Page margin at 300 DPI, `SheetComposer.MARGIN_PX`. -/
def MARGIN_PX : ℕ := 150

/-- `SheetComposer._get_sheet_dimensions`. -/
def get_sheet_dimensions : SheetOrient → ℕ × ℕ
  | SheetOrient.portrait => (A4_WIDTH_PX, A4_HEIGHT_PX)
  | SheetOrient.landscape => (A4_HEIGHT_PX, A4_WIDTH_PX)

/-- `SheetComposer._calculate_cell_dimensions`: usable area (page minus
margins) divided evenly by the grid. -/
def calculate_cell_dimensions (sheet_width sheet_height : ℕ)
    (grid : GridLayout) : ℕ × ℕ :=
  ((sheet_width - 2 * MARGIN_PX) / grid.columns,
    (sheet_height - 2 * MARGIN_PX) / grid.rows)

/-- `SheetComposer._resize_image_to_fit`: scale the image (20px padding
inside the cell on each side) preserving aspect ratio; returns the new
pixel dimensions. -/
def resize_image_to_fit (image_width image_height : ℕ)
    (max_width max_height : ℕ) : ℤ × ℤ :=
  let target_width : ℤ := (max_width : ℤ) - 2 * 20
  let target_height : ℤ := (max_height : ℤ) - 2 * 20
  let width_ratio : ℚ := (target_width : ℚ) / (image_width : ℚ)
  let height_ratio : ℚ := (target_height : ℚ) / (image_height : ℚ)
  let scale_factor := min width_ratio height_ratio
  (pyInt ((image_width : ℚ) * scale_factor),
    pyInt ((image_height : ℚ) * scale_factor))

/-- One arranged image on the pixel canvas: its scaled size and the
top-left corner where it is pasted. -/
structure Placement where
  w : ℤ
  h : ℤ
  x : ℤ
  y : ℤ
  deriving DecidableEq, Repr

/-- Placement of the `i`-th image of the arrangement loop: grid position
row-major, image resized to its cell, centred within the cell. -/
def place_image (grid : GridLayout) (cell_width cell_height : ℕ)
    (i : ℕ) (image : ℕ × ℕ) : Placement :=
  let row := i / grid.columns
  let col := i % grid.columns
  let resized := resize_image_to_fit image.1 image.2 cell_width cell_height
  { w := resized.1, h := resized.2,
    x := (MARGIN_PX : ℤ) + (col : ℤ) * (cell_width : ℤ) +
      Int.fdiv ((cell_width : ℤ) - resized.1) 2,
    y := (MARGIN_PX : ℤ) + (row : ℤ) * (cell_height : ℤ) +
      Int.fdiv ((cell_height : ℤ) - resized.2) 2 }

/-- Loop of `SheetComposer._arrange_images_in_grid`, carrying the running
image index; the `break` on `row ≥ rows` ends the whole loop. -/
def arrangeGo (grid : GridLayout) (cell_width cell_height : ℕ) :
    ℕ → List (ℕ × ℕ) → List Placement
  | _, [] => []
  | i, image :: rest =>
    if grid.rows ≤ i / grid.columns then []
    else
      place_image grid cell_width cell_height i image ::
        arrangeGo grid cell_width cell_height (i + 1) rest

/-- `SheetComposer._arrange_images_in_grid` over the images' pixel
sizes. -/
def arrange_images_in_grid (images : List (ℕ × ℕ)) (grid : GridLayout)
    (cell_width cell_height : ℕ) : List Placement :=
  arrangeGo grid cell_width cell_height 0 images

/-- Full placement geometry of one composed sheet: page size from the
orientation, cell size from the grid, then the arrangement loop. -/
def sheet_placements (orient : SheetOrient) (grid : GridLayout)
    (images : List (ℕ × ℕ)) : List Placement :=
  let dims := get_sheet_dimensions orient
  let cells := calculate_cell_dimensions dims.1 dims.2 grid
  arrange_images_in_grid images grid cells.1 cells.2

/-! ### Batch endpoint: `main.process_batch` -/

/-- The slice of `models.ProcessedImage` the batch loop accumulates. -/
structure ProcessedImage where
  original_path : String
  crop_coordinates : BoundingBox
  deriving DecidableEq, Repr

/-- Exceptions the per-item `except` clauses of `main.process_batch`
distinguish. -/
inductive BatchItemException
  | file_not_found (msg : String)
  | invalid_input (msg : String)
  | memory_error (msg : String)
  | processing_failed (msg : String)
  deriving DecidableEq, Repr

/-- One entry of the `failed_images` list. -/
structure FailureRecord where
  path : String
  error : String
  error_code : String
  deriving DecidableEq, Repr

/-- The failure dictionary built by each `except` clause. -/
def failure_record (path : String) : BatchItemException → FailureRecord
  | BatchItemException.file_not_found msg =>
    { path := path, error := "File not found: " ++ msg,
      error_code := "IMAGE_NOT_FOUND" }
  | BatchItemException.invalid_input msg =>
    { path := path, error := "Invalid input: " ++ msg,
      error_code := "INVALID_INPUT" }
  | BatchItemException.memory_error msg =>
    { path := path, error := "Memory error: " ++ msg,
      error_code := "INSUFFICIENT_MEMORY" }
  | BatchItemException.processing_failed msg =>
    { path := path, error := "Processing failed: " ++ msg,
      error_code := "PROCESSING_FAILED" }

/-- Request-level failures of the batch endpoint: a `ValueError` raised
by the upfront validations, or the HTTP 422 raised when every image
failed. -/
inductive BatchError
  | invalid_request (msg : String)
  | all_failed (failures : List FailureRecord)
  deriving DecidableEq, Repr

/-- `models.BatchProcessResult` (processing time omitted). -/
structure BatchProcessResult where
  processed_images : List ProcessedImage
  failed_images : List FailureRecord
  deriving DecidableEq, Repr

/-- The per-image loop of `main.process_batch`: each image is handed to
the detection-and-crop body (the oracle `item`); a success is appended to
the processed list, a raised exception only to the failure list, and the
loop always continues with the next image. -/
def batch_loop (images : List String)
    (item : String → Except BatchItemException ProcessedImage) :
    List ProcessedImage × List FailureRecord :=
  images.foldl (fun acc path =>
    match item path with
    | Except.ok processed => (acc.1 ++ [processed], acc.2)
    | Except.error e => (acc.1, acc.2 ++ [failure_record path e]))
    ([], [])

/-- `main.process_batch`: upfront request validation, the isolated
per-item loop, then the all-failed check that raises HTTP 422. -/
def process_batch (max_batch_size : ℕ) (images : List String)
    (ratio_width ratio_height : ℤ) (detection_types : List DetectionType)
    (item : String → Except BatchItemException ProcessedImage) :
    Except BatchError BatchProcessResult :=
  if images = [] then
    BatchError.invalid_request "Batch request must contain at least one image"
      |> Except.error
  else if max_batch_size < images.length then
    BatchError.invalid_request "Batch size exceeds maximum allowed"
      |> Except.error
  else if ratio_width ≤ 0 ∨ ratio_height ≤ 0 then
    BatchError.invalid_request "Target aspect ratio dimensions must be positive"
      |> Except.error
  else if detection_types = [] then
    BatchError.invalid_request "At least one detection type must be specified"
      |> Except.error
  else
    let r := batch_loop images item
    if r.1 = [] ∧ r.2 ≠ [] then Except.error (BatchError.all_failed r.2)
    else Except.ok { processed_images := r.1, failed_images := r.2 }

/-! ### Properties of the consistency enforcement -/

theorem ensure_logical_consistency_snd (f p : List DetectionResult) :
    (ensure_logical_consistency f p).2 = p := by
  unfold ensure_logical_consistency
  split_ifs <;> rfl

theorem ensure_logical_consistency_length (f p : List DetectionResult) :
    (ensure_logical_consistency f p).1.length ≤ p.length := by
  unfold ensure_logical_consistency
  split_ifs with h1 h2
  · exact h1
  · simp
  · simp [List.length_take, length_sortDescBy]

theorem ensure_logical_consistency_subset (f p : List DetectionResult) :
    ∀ x ∈ (ensure_logical_consistency f p).1, x ∈ f := by
  unfold ensure_logical_consistency
  split_ifs with h1 h2
  · exact fun x hx => hx
  · simp
  · intro x hx
    exact (mem_sortDescBy _ f x).mp (List.take_subset _ _ hx)

theorem apply_consistency_face_le_person (filtered : List DetectionResult) :
    (apply_consistency true filtered).countP
      (fun d => d.type = DetectionType.face) ≤
    (apply_consistency true filtered).countP
      (fun d => d.type = DetectionType.person) := by
  unfold apply_consistency
  by_cases hff : filtered.filter (fun d => d.type = DetectionType.face) = []
  · rw [if_neg (by simp [hff])]
    have h0 : filtered.countP (fun d => d.type = DetectionType.face) = 0 := by
      rw [List.countP_eq_length_filter, hff]
      rfl
    simp [h0]
  · rw [if_pos ⟨rfl, hff⟩]
    simp only [List.countP_append]
    set ff := filtered.filter (fun d => d.type = DetectionType.face) with hffdef
    set fpp := filtered.filter (fun d => d.type = DetectionType.person) with hfppdef
    have hmem1 : ∀ x ∈ (ensure_logical_consistency ff fpp).1,
        x.type = DetectionType.face := by
      intro x hx
      have hxff := ensure_logical_consistency_subset ff fpp x hx
      rw [hffdef, List.mem_filter] at hxff
      simpa using hxff.2
    have hmem2 : ∀ x ∈ (ensure_logical_consistency ff fpp).2,
        x.type = DetectionType.person := by
      intro x hx
      rw [ensure_logical_consistency_snd, hfppdef, List.mem_filter] at hx
      simpa using hx.2
    have hc1 : (ensure_logical_consistency ff fpp).1.countP
        (fun d => d.type = DetectionType.face) =
        (ensure_logical_consistency ff fpp).1.length :=
      List.countP_eq_length.mpr (fun a ha => by simp [hmem1 a ha])
    have hc2 : (ensure_logical_consistency ff fpp).2.countP
        (fun d => d.type = DetectionType.face) = 0 :=
      List.countP_eq_zero.mpr (fun a ha => by simp [hmem2 a ha])
    have hc3 : (ensure_logical_consistency ff fpp).2.countP
        (fun d => d.type = DetectionType.person) =
        (ensure_logical_consistency ff fpp).2.length :=
      List.countP_eq_length.mpr (fun a ha => by simp [hmem2 a ha])
    have hlen : (ensure_logical_consistency ff fpp).1.length ≤
        (ensure_logical_consistency ff fpp).2.length := by
      rw [ensure_logical_consistency_snd]
      exact ensure_logical_consistency_length ff fpp
    have hc4 : (filtered.filter (fun d => d.type ≠ DetectionType.face ∧
        d.type ≠ DetectionType.person)).countP
        (fun d => d.type = DetectionType.face) = 0 :=
      List.countP_eq_zero.mpr (fun a ha => by
        have := (List.mem_filter.mp ha).2
        simp only [decide_eq_true_eq] at this ⊢
        exact fun hfa => this.1 hfa)
    omega

/-- C1.  Strict-mode consistency invariant: with consistency enforcement
enabled, the detections of every response of
`process_detection_request` — whatever the file system, image decode,
detector outcomes and secondary-search outcomes were — contain at most
as many face detections as person detections. -/
theorem strict_mode_consistency_invariant (env : DetectionEnv)
    (request : DetectionRequest) :
    ((process_detection_request env request true).detections.countP
      (fun d => d.type = DetectionType.face)) ≤
    ((process_detection_request env request true).detections.countP
      (fun d => d.type = DetectionType.person)) := by
  unfold process_detection_request process_detection_core
  cases hst : detection_stage env request with
  | error e => simp [Except.map]
  | ok r =>
    simp only [Except.map]
    exact apply_consistency_face_le_person (remove_overlapping_detections r.1)

/-- C2.  Strict-mode enforcement behaviour when faces outnumber persons:
with zero persons everything is dropped; otherwise the person list is
unchanged and exactly the `count(persons)` top-confidence faces (stable
descending sort) are kept. -/
theorem strict_enforcement_behavior (faces persons : List DetectionResult)
    (hgt : persons.length < faces.length) :
    (persons = [] → ensure_logical_consistency faces persons = ([], [])) ∧
    (persons ≠ [] →
      (ensure_logical_consistency faces persons).2 = persons ∧
      (ensure_logical_consistency faces persons).1 =
        (sortDescBy (fun d => d.confidence) faces).take persons.length ∧
      (ensure_logical_consistency faces persons).1.length = persons.length ∧
      (∀ f ∈ (ensure_logical_consistency faces persons).1, f ∈ faces) ∧
      (∀ f ∈ (ensure_logical_consistency faces persons).1,
        ∀ g ∈ (sortDescBy (fun d => d.confidence) faces).drop persons.length,
          g.confidence ≤ f.confidence)) := by
  have hnle : ¬ faces.length ≤ persons.length := not_le.mpr hgt
  constructor
  · intro hp
    subst hp
    unfold ensure_logical_consistency
    rw [if_neg hnle, if_pos ⟨rfl, by simpa using hgt⟩]
  · intro hp
    have hcond : ¬ (persons.length = 0 ∧ 0 < faces.length) := by
      rintro ⟨h0, -⟩
      exact hp (List.length_eq_zero.mp h0)
    have heq : ensure_logical_consistency faces persons =
        ((sortDescBy (fun d => d.confidence) faces).take persons.length,
          persons) := by
      unfold ensure_logical_consistency
      rw [if_neg hnle, if_neg hcond]
    have hslen : (sortDescBy (fun d => d.confidence) faces).length =
        faces.length := length_sortDescBy _ _
    refine ⟨by rw [heq], by rw [heq], ?_, ?_, ?_⟩
    · rw [heq]
      simp only [List.length_take, hslen]
      exact min_eq_left (le_of_lt hgt)
    · intro f hf
      rw [heq] at hf
      exact (mem_sortDescBy _ faces f).mp (List.take_subset _ _ hf)
    · intro f hf g hg
      rw [heq] at hf
      have hs := sorted_sortDescBy (fun d => d.confidence) faces
      have hsplit := List.take_append_drop persons.length
        (sortDescBy (fun d => d.confidence) faces)
      have hp2 : List.Pairwise (keyGE (fun d => d.confidence))
          ((sortDescBy (fun d => d.confidence) faces).take persons.length ++
            (sortDescBy (fun d => d.confidence) faces).drop persons.length) := by
        rw [hsplit]
        exact hs
      exact (List.pairwise_append.mp hp2).2.2 f hf g hg

/-- C8.  Secondary-search failure swallowing: a detector exception during
the targeted body search yields `none` (never propagates), and when the
search fails for every face the enhancement stage adds nothing, leaving
the person list unchanged (faces are never touched by this stage). -/
theorem secondary_search_failure_swallowed (image_width image_height : ℤ)
    (face : DetectionResult) (face_detections existing : List DetectionResult)
    (hog : DetectionResult → HogOutcome)
    (hfail : ∀ f ∈ face_detections, hog f = Except.error ()) :
    search_person_around_face image_width image_height face
      (Except.error ()) = none ∧
    enhance_person_detection_around_faces image_width image_height
      face_detections existing hog = [] ∧
    existing ++ enhance_person_detection_around_faces image_width image_height
      face_detections existing hog = existing := by
  have hsearch : ∀ (w h : ℤ) (f : DetectionResult),
      search_person_around_face w h f (Except.error ()) = none := by
    intro w h f
    simp [search_person_around_face]
  have henh : enhance_person_detection_around_faces image_width image_height
      face_detections existing hog = [] := by
    unfold enhance_person_detection_around_faces
    suffices hgen : ∀ (l : List DetectionResult), (∀ f ∈ l, hog f = Except.error ()) →
        ∀ acc, l.foldl (fun enhanced face =>
          let face_center_x := face.bounding_box.x + Int.fdiv face.bounding_box.width 2
          let face_center_y := face.bounding_box.y + Int.fdiv face.bounding_box.height 2
          let has_corresponding_person := existing.any (fun person =>
            person.bounding_box.x ≤ face_center_x ∧
            face_center_x ≤ person.bounding_box.x + person.bounding_box.width ∧
            person.bounding_box.y ≤ face_center_y ∧
            (face_center_y : ℚ) ≤ (person.bounding_box.y : ℚ) +
              (person.bounding_box.height : ℚ) * (6/5))
          if has_corresponding_person then enhanced
          else
            match search_person_around_face image_width image_height face (hog face) with
            | none => enhanced
            | some person_candidate =>
              let is_duplicate := (existing ++ enhanced).any (fun e =>
                3/10 < calculate_iou person_candidate.bounding_box e.bounding_box)
              if is_duplicate then enhanced else enhanced ++ [person_candidate]) acc = acc by
      exact hgen face_detections hfail []
    intro l
    induction l with
    | nil => intro _ acc; rfl
    | cons f fs ih =>
      intro hl acc
      simp only [List.foldl_cons]
      rw [hl f (List.mem_cons_self f fs)]
      rw [hsearch image_width image_height f]
      split
      · exact ih (fun x hx => hl x (List.mem_cons_of_mem f hx)) acc
      · exact ih (fun x hx => hl x (List.mem_cons_of_mem f hx)) acc
  exact ⟨hsearch image_width image_height face, henh, by rw [henh, List.append_nil]⟩

/-- C9.  Centre-crop scenario: an 800×600 image with target ratio 16:9
under the `center` strategy is cropped to the 800×450 rectangle at
`x = 0`, `y = 75`. -/
theorem center_crop_scenario :
    calculate_crop_coordinates 800 600 16 9 [] CropStrategy.center =
      { x := 0, y := 75, width := 800, height := 450 } := by
  simp only [calculate_crop_coordinates]
  norm_num [pyInt]
  decide

/-! ### Error totality of the detection endpoint -/

theorem process_fallback_of_error (env : DetectionEnv)
    (request : DetectionRequest) (enforce_consistency : Bool)
    (h : detection_stage env request = Except.error ()) :
    process_detection_request env request enforce_consistency =
      { image_path := request.image_path, detections := [],
        image_width := 0, image_height := 0 } := by
  unfold process_detection_request process_detection_core
  rw [h]
  rfl

theorem detection_stage_error_of_no_path (env : DetectionEnv)
    (request : DetectionRequest) (h : env.path_exists = false) :
    detection_stage env request = Except.error () := by
  simp [detection_stage, h]

theorem detection_stage_error_of_no_image (env : DetectionEnv)
    (request : DetectionRequest) (h : env.image_dims = none) :
    detection_stage env request = Except.error () := by
  unfold detection_stage
  by_cases hp : env.path_exists = false
  · simp [hp]
  · simp [hp, h]

theorem detection_stage_error_of_face_error (env : DetectionEnv)
    (request : DetectionRequest)
    (hmem : DetectionType.face ∈ request.detection_types)
    (herr : env.face_outcome = Except.error ()) :
    detection_stage env request = Except.error () := by
  unfold detection_stage
  by_cases hp : env.path_exists = false
  · simp [hp]
  · rcases hdims : env.image_dims with - | ⟨w, h⟩
    · simp [hp, hdims]
    · simp [hp, hdims, hmem, herr]

theorem detection_stage_error_of_person_error (env : DetectionEnv)
    (request : DetectionRequest)
    (hmem : DetectionType.person ∈ request.detection_types)
    (herr : env.person_outcome = Except.error ()) :
    detection_stage env request = Except.error () := by
  unfold detection_stage
  by_cases hp : env.path_exists = false
  · simp [hp]
  · rcases hdims : env.image_dims with - | ⟨w, h⟩
    · simp [hp, hdims]
    · rcases hface : (if DetectionType.face ∈ request.detection_types
          then env.face_outcome else Except.ok []) with e | raw
      · simp [hp, hdims, hface]
      · simp [hp, hdims, hface, hmem, herr]

/-- C10.  Totality of the detection endpoint: `process_detection_request`
is a total function; on any internal failure (the `detection_stage`
error), including a nonexistent image path, an unreadable image or a
raised detector call, it returns the empty-detections response with image
dimensions `0×0` instead of surfacing an error. -/
theorem detection_request_total_fallback (env : DetectionEnv)
    (request : DetectionRequest) (enforce_consistency : Bool) :
    (detection_stage env request = Except.error () →
      process_detection_request env request enforce_consistency =
        { image_path := request.image_path, detections := [],
          image_width := 0, image_height := 0 }) ∧
    (env.path_exists = false → detection_stage env request = Except.error ()) ∧
    (env.image_dims = none → detection_stage env request = Except.error ()) ∧
    (DetectionType.face ∈ request.detection_types →
      env.face_outcome = Except.error () →
      detection_stage env request = Except.error ()) ∧
    (DetectionType.person ∈ request.detection_types →
      env.person_outcome = Except.error () →
      detection_stage env request = Except.error ()) :=
  ⟨process_fallback_of_error env request enforce_consistency,
    detection_stage_error_of_no_path env request,
    detection_stage_error_of_no_image env request,
    detection_stage_error_of_face_error env request,
    detection_stage_error_of_person_error env request⟩

/-! ### Concrete witnesses -/

/-- A low-confidence sample face detection. -/
def sampleFaceLo : DetectionResult :=
  { type := DetectionType.face, confidence := 1/2,
    bounding_box := { x := 0, y := 0, width := 10, height := 10 } }

/-- A high-confidence sample face detection. -/
def sampleFaceHi : DetectionResult :=
  { type := DetectionType.face, confidence := 3/4,
    bounding_box := { x := 20, y := 20, width := 10, height := 10 } }

/-- A sample person detection. -/
def samplePerson : DetectionResult :=
  { type := DetectionType.person, confidence := 1/2,
    bounding_box := { x := 0, y := 0, width := 20, height := 40 } }

/-- An environment where the requested image path does not exist. -/
def envNoPath : DetectionEnv :=
  { path_exists := false, image_dims := none,
    face_outcome := Except.ok [], person_outcome := Except.ok [],
    hog := fun _ => Except.error () }

/-- A sample detection request. -/
def sampleRequest : DetectionRequest :=
  { image_path := "photo.jpg",
    detection_types := [DetectionType.face, DetectionType.person],
    confidence_threshold := 1/2 }

theorem strict_enforcement_behavior_witness :
    ([samplePerson] : List DetectionResult).length <
      ([sampleFaceLo, sampleFaceHi] : List DetectionResult).length ∧
    (ensure_logical_consistency [sampleFaceLo, sampleFaceHi] [samplePerson]).2 =
      [samplePerson] ∧
    (ensure_logical_consistency [sampleFaceLo, sampleFaceHi] [samplePerson]).1.length = 1 := by
  have h := (strict_enforcement_behavior [sampleFaceLo, sampleFaceHi]
    [samplePerson] (by decide)).2 (by simp)
  refine ⟨by decide, h.1, ?_⟩
  rw [h.2.2.1]
  rfl

theorem secondary_search_failure_swallowed_witness :
    search_person_around_face 100 100 sampleFaceLo (Except.error ()) = none ∧
    enhance_person_detection_around_faces 100 100 [sampleFaceLo] []
      (fun _ => Except.error ()) = [] ∧
    [] ++ enhance_person_detection_around_faces 100 100 [sampleFaceLo] []
      (fun _ => Except.error ()) = [] :=
  secondary_search_failure_swallowed 100 100 sampleFaceLo [sampleFaceLo] []
    (fun _ => Except.error ()) (fun _ _ => rfl)

theorem detection_request_total_fallback_witness :
    envNoPath.path_exists = false ∧
    process_detection_request envNoPath sampleRequest true =
      { image_path := "photo.jpg", detections := [],
        image_width := 0, image_height := 0 } := by
  have h := detection_request_total_fallback envNoPath sampleRequest true
  exact ⟨rfl, h.1 (h.2.1 rfl)⟩

/-! ### Batch per-item failure isolation -/

theorem batch_loop_foldl (item : String → Except BatchItemException ProcessedImage) :
    ∀ (images : List String) (acc : List ProcessedImage × List FailureRecord),
      images.foldl (fun acc path =>
        match item path with
        | Except.ok processed => (acc.1 ++ [processed], acc.2)
        | Except.error e => (acc.1, acc.2 ++ [failure_record path e])) acc =
      (acc.1 ++ images.filterMap (fun p => (item p).toOption),
        acc.2 ++ images.filterMap (fun p =>
          match item p with
          | Except.ok _ => none
          | Except.error e => some (failure_record p e))) := by
  intro images
  induction images with
  | nil => intro acc; simp
  | cons p ps ih =>
    intro acc
    simp only [List.foldl_cons]
    cases hip : item p with
    | ok processed =>
      rw [ih]
      simp [List.filterMap_cons, hip, Except.toOption]
    | error e =>
      rw [ih]
      simp [List.filterMap_cons, hip, Except.toOption]

theorem batch_loop_spec (images : List String)
    (item : String → Except BatchItemException ProcessedImage) :
    batch_loop images item =
      (images.filterMap (fun p => (item p).toOption),
        images.filterMap (fun p =>
          match item p with
          | Except.ok _ => none
          | Except.error e => some (failure_record p e))) := by
  unfold batch_loop
  rw [batch_loop_foldl]
  simp

theorem filterMap_partition_counts (images : List String)
    (item : String → Except BatchItemException ProcessedImage) :
    (images.filterMap (fun p => (item p).toOption)).length +
      (images.filterMap (fun p =>
        match item p with
        | Except.ok _ => none
        | Except.error e => some (failure_record p e))).length =
      images.length := by
  induction images with
  | nil => rfl
  | cons p ps ih =>
    simp only [Except.toOption] at ih ⊢
    simp only [List.filterMap_cons, List.length_cons]
    cases hip : item p with
    | ok processed => simp only [hip, List.length_cons]; omega
    | error e => simp only [hip, List.length_cons]; omega

theorem batch_loop_counts (images : List String)
    (item : String → Except BatchItemException ProcessedImage) :
    (batch_loop images item).1.length + (batch_loop images item).2.length =
      images.length := by
  rw [batch_loop_spec]
  exact filterMap_partition_counts images item

/-- C7.  Batch per-item failure isolation: for a valid batch request the
loop visits every image — the successes are exactly the images whose
processing succeeded (in order), the failure records exactly the images
whose processing raised (in order), and the two partition the batch; a
batch with zero successes and at least one failure is reported as an
overall failure (HTTP 422), while any other batch returns both lists. -/
theorem batch_failure_isolation (max_batch_size : ℕ) (images : List String)
    (ratio_width ratio_height : ℤ) (detection_types : List DetectionType)
    (item : String → Except BatchItemException ProcessedImage)
    (hne : images ≠ []) (hsize : images.length ≤ max_batch_size)
    (hrw : 0 < ratio_width) (hrh : 0 < ratio_height)
    (htypes : detection_types ≠ []) :
    (batch_loop images item).1 =
      images.filterMap (fun p => (item p).toOption) ∧
    (batch_loop images item).2 =
      images.filterMap (fun p =>
        match item p with
        | Except.ok _ => none
        | Except.error e => some (failure_record p e)) ∧
    (batch_loop images item).1.length + (batch_loop images item).2.length =
      images.length ∧
    process_batch max_batch_size images ratio_width ratio_height
        detection_types item =
      (if (batch_loop images item).1 = [] ∧ (batch_loop images item).2 ≠ [] then
        Except.error (BatchError.all_failed (batch_loop images item).2)
      else
        Except.ok { processed_images := (batch_loop images item).1,
                    failed_images := (batch_loop images item).2 }) := by
  refine ⟨by rw [batch_loop_spec], by rw [batch_loop_spec],
    batch_loop_counts images item, ?_⟩
  unfold process_batch
  rw [if_neg hne, if_neg (not_lt.mpr hsize),
    if_neg (by push_neg; exact ⟨hrw, hrh⟩), if_neg htypes]

/-- A sample per-item processing outcome for the batch witness: paths of
length 5 succeed, the rest raise a file-not-found error. -/
def sampleItem : String → Except BatchItemException ProcessedImage := fun p =>
  if p.length = 5 then
    Except.ok { original_path := p,
                crop_coordinates := { x := 0, y := 0, width := 1, height := 1 } }
  else Except.error (BatchItemException.file_not_found p)

theorem batch_failure_isolation_witness :
    (batch_loop ["a.jpg", "bad"] sampleItem).1.length +
      (batch_loop ["a.jpg", "bad"] sampleItem).2.length = 2 :=
  (batch_failure_isolation 5 ["a.jpg", "bad"] 16 9 [DetectionType.face]
    sampleItem (by decide) (by decide) (by decide) (by decide) (by decide)).2.2.1

/-! ### Global NMS contract -/

theorem apply_nms_short (detections : List DetectionResult) (thr : ℚ)
    (h : detections.length ≤ 1) : apply_nms detections thr = detections := by
  simp [apply_nms, h]

theorem apply_nms_subset (detections : List DetectionResult) (thr : ℚ) :
    ∀ x ∈ apply_nms detections thr, x ∈ detections := by
  intro x hx
  unfold apply_nms at hx
  split at hx
  · exact hx
  · dsimp only at hx
    split at hx
    · obtain ⟨i, -, hsome⟩ := List.mem_filterMap.mp hx
      exact List.getElem?_mem hsome
    · simp at hx

theorem remove_overlapping_short (detections : List DetectionResult)
    (h : detections.length ≤ 1) :
    remove_overlapping_detections detections = detections := by
  simp [remove_overlapping_detections, h]

theorem remove_overlapping_filter_face (detections : List DetectionResult) :
    (remove_overlapping_detections detections).filter
      (fun d => d.type = DetectionType.face) =
    apply_nms (detections.filter (fun d => d.type = DetectionType.face)) (1/4) := by
  by_cases h : detections.length ≤ 1
  · rw [remove_overlapping_short detections h,
      apply_nms_short _ _ (le_trans (List.length_filter_le _ _) h)]
  · unfold remove_overlapping_detections
    rw [if_neg h, List.filter_append]
    have h1 : (apply_nms (detections.filter
        (fun d => d.type = DetectionType.face)) (1/4)).filter
        (fun d => d.type = DetectionType.face) =
        apply_nms (detections.filter (fun d => d.type = DetectionType.face)) (1/4) := by
      refine List.filter_eq_self.mpr (fun a ha => ?_)
      have := (List.mem_filter.mp (apply_nms_subset _ _ a ha)).2
      simpa using this
    have h2 : (apply_nms (detections.filter
        (fun d => d.type = DetectionType.person)) (1/4)).filter
        (fun d => d.type = DetectionType.face) = [] := by
      refine List.filter_eq_nil_iff.mpr (fun a ha => ?_)
      have := (List.mem_filter.mp (apply_nms_subset _ _ a ha)).2
      simp only [decide_eq_true_eq] at this ⊢
      rw [this]
      exact fun hcontra => DetectionType.noConfusion hcontra
    rw [h1, h2, List.append_nil]

theorem remove_overlapping_filter_person (detections : List DetectionResult) :
    (remove_overlapping_detections detections).filter
      (fun d => d.type = DetectionType.person) =
    apply_nms (detections.filter (fun d => d.type = DetectionType.person)) (1/4) := by
  by_cases h : detections.length ≤ 1
  · rw [remove_overlapping_short detections h,
      apply_nms_short _ _ (le_trans (List.length_filter_le _ _) h)]
  · unfold remove_overlapping_detections
    rw [if_neg h, List.filter_append]
    have h1 : (apply_nms (detections.filter
        (fun d => d.type = DetectionType.face)) (1/4)).filter
        (fun d => d.type = DetectionType.person) = [] := by
      refine List.filter_eq_nil_iff.mpr (fun a ha => ?_)
      have := (List.mem_filter.mp (apply_nms_subset _ _ a ha)).2
      simp only [decide_eq_true_eq] at this ⊢
      rw [this]
      exact fun hcontra => DetectionType.noConfusion hcontra
    have h2 : (apply_nms (detections.filter
        (fun d => d.type = DetectionType.person)) (1/4)).filter
        (fun d => d.type = DetectionType.person) =
        apply_nms (detections.filter (fun d => d.type = DetectionType.person)) (1/4) := by
      refine List.filter_eq_self.mpr (fun a ha => ?_)
      have := (List.mem_filter.mp (apply_nms_subset _ _ a ha)).2
      simpa using this
    rw [h1, h2, List.nil_append]

theorem apply_nms_tie_stable (d₁ d₂ : DetectionResult)
    (hconf : d₁.confidence = d₂.confidence) (hpos : 0 < d₁.confidence)
    (hiou : 1/4 < calculate_iou d₁.bounding_box d₂.bounding_box) :
    apply_nms [d₁, d₂] (1/4) = [d₁] := by
  have hlen : ¬ ([d₁, d₂] : List DetectionResult).length ≤ 1 := by simp
  have hpos2 : (0 : ℚ) < d₂.confidence := hconf ▸ hpos
  have hlt : ¬ d₁.confidence < d₂.confidence := by rw [hconf]; exact lt_irrefl _
  have hnle : ¬ calculate_iou d₁.bounding_box d₂.bounding_box ≤ 1/4 :=
    not_le.mpr hiou
  simp [apply_nms, cvNMSBoxes, sortDescBy, insertDescBy, nmsGreedy,
    List.enum, List.enumFrom, hlen, hpos, hpos2, hlt, hnle]
  intro a ha
  rw [show (List.filter (fun p => decide
      (calculate_iou d₁.bounding_box p.2 ≤ 4⁻¹)) [(1, d₂.bounding_box)]) = []
    from by simpa using hiou] at ha
  simp [nmsGreedy] at ha

/-- C4.  Global NMS contract: suppression operates independently per
detection kind with IoU threshold `0.25` (the face/person slices of the
output are exactly the per-kind NMS of the input slices), an empty or
singleton list is returned unchanged, and an equal-confidence tie between
two overlapping detections is broken in favour of the earlier input
(stable sort). -/
theorem global_nms_contract (detections : List DetectionResult)
    (d₁ d₂ : DetectionResult) :
    (detections.length ≤ 1 →
      remove_overlapping_detections detections = detections ∧
      ∀ thr : ℚ, apply_nms detections thr = detections) ∧
    ((remove_overlapping_detections detections).filter
        (fun d => d.type = DetectionType.face) =
      apply_nms (detections.filter (fun d => d.type = DetectionType.face))
        (1/4)) ∧
    ((remove_overlapping_detections detections).filter
        (fun d => d.type = DetectionType.person) =
      apply_nms (detections.filter (fun d => d.type = DetectionType.person))
        (1/4)) ∧
    (d₁.type = d₂.type → d₁.confidence = d₂.confidence →
      0 < d₁.confidence →
      1/4 < calculate_iou d₁.bounding_box d₂.bounding_box →
      apply_nms [d₁, d₂] (1/4) = [d₁]) :=
  ⟨fun h => ⟨remove_overlapping_short detections h,
      fun thr => apply_nms_short detections thr h⟩,
    remove_overlapping_filter_face detections,
    remove_overlapping_filter_person detections,
    fun _ hconf hpos hiou => apply_nms_tie_stable d₁ d₂ hconf hpos hiou⟩

/-- A second sample face overlapping `sampleFaceLo` with equal
confidence. -/
def sampleFaceB : DetectionResult :=
  { type := DetectionType.face, confidence := 1/2,
    bounding_box := { x := 1, y := 1, width := 10, height := 10 } }

theorem global_nms_contract_witness :
    remove_overlapping_detections [sampleFaceLo] = [sampleFaceLo] ∧
    apply_nms [sampleFaceLo, sampleFaceB] (1/4) = [sampleFaceLo] :=
  ⟨((global_nms_contract [sampleFaceLo] sampleFaceLo sampleFaceB).1
      (by decide)).1,
    (global_nms_contract [sampleFaceLo] sampleFaceLo sampleFaceB).2.2.2
      rfl rfl (by norm_num [sampleFaceLo])
      (by norm_num [calculate_iou, sampleFaceLo, sampleFaceB])⟩

/-! ### Consolidator greedy maximum-area merge -/

theorem rectInter_nonneg (a b : FaceRect) : 0 ≤ rectInter a b :=
  mul_nonneg (le_max_left 0 _) (le_max_left 0 _)

theorem rectInter_le_area (a b : FaceRect) (haw : 0 < a.w) (hah : 0 < a.h) :
    rectInter a b ≤ a.area := by
  unfold rectInter FaceRect.area
  have h1 : max 0 (min (a.x + a.w) (b.x + b.w) - max a.x b.x) ≤ a.w := by omega
  have h2 : max 0 (min (a.y + a.h) (b.y + b.h) - max a.y b.y) ≤ a.h := by omega
  exact mul_le_mul h1 h2 (le_max_left 0 _) (le_of_lt haw)

theorem rectUnion_pos (a b : FaceRect) (haw : 0 < a.w) (hah : 0 < a.h)
    (hbw : 0 < b.w) (hbh : 0 < b.h) : 0 < rectUnion a b := by
  have h1 := rectInter_le_area a b haw hah
  have h2 : 0 < b.area := mul_pos hbw hbh
  unfold rectUnion
  omega

/-- The numpy `intersection / (union + 1e-6)` comparison against `0.2`
agrees, on integer rectangles, with comparing the exact IoU against
`0.2` inclusively: the epsilon makes the boundary case IoU `= 0.2` fall
strictly below the threshold. -/
theorem mergeIoU_lt_iff (a b : FaceRect) (haw : 0 < a.w) (hah : 0 < a.h)
    (hbw : 0 < b.w) (hbh : 0 < b.h) :
    (mergeIoU a b < 1/5) ↔ (rectIoU a b ≤ 1/5) := by
  have hU := rectUnion_pos a b haw hah hbw hbh
  have hI := rectInter_nonneg a b
  have hUq : (0 : ℚ) < (rectUnion a b : ℚ) := by exact_mod_cast hU
  have hUe : (0 : ℚ) < (rectUnion a b : ℚ) + 1/1000000 := by positivity
  unfold mergeIoU rectIoU
  rw [if_pos hU, div_lt_iff₀ hUe, div_le_iff₀ hUq]
  constructor
  · intro h
    by_contra hc
    push_neg at hc
    have h5 : rectUnion a b < 5 * rectInter a b := by
      have hq : ((rectUnion a b : ℤ) : ℚ) < ((5 * rectInter a b : ℤ) : ℚ) := by
        push_cast
        linarith
      exact_mod_cast hq
    have h6 : (rectUnion a b : ℚ) + 1 ≤ 5 * (rectInter a b : ℚ) := by
      have hz : rectUnion a b + 1 ≤ 5 * rectInter a b := by omega
      exact_mod_cast hz
    linarith
  · intro h
    linarith

theorem mergeGreedy_subset (t : ℚ) (l : List FaceRect) :
    ∀ x ∈ mergeGreedy t l, x ∈ l := by
  induction l using mergeGreedy.induct with
  | overlap_threshold => exact t
  | case1 => simp [mergeGreedy]
  | case2 r rest ih =>
    intro x hx
    rw [mergeGreedy] at hx
    rcases List.mem_cons.mp hx with h | h
    · exact h ▸ List.mem_cons_self r rest
    · exact List.mem_cons_of_mem r (List.mem_of_mem_filter (ih x h))

theorem mergeGreedy_pairwise (l : List FaceRect)
    (hpos : ∀ r ∈ l, 0 < r.w ∧ 0 < r.h) :
    List.Pairwise (fun a b => rectIoU a b ≤ 1/5) (mergeGreedy (1/5) l) := by
  induction l using mergeGreedy.induct with
  | overlap_threshold => exact 1/5
  | case1 => simp [mergeGreedy]
  | case2 r rest ih =>
    rw [mergeGreedy]
    have hposf : ∀ s ∈ rest.filter (fun s => mergeIoU r s < 1/5),
        0 < s.w ∧ 0 < s.h :=
      fun s hs => hpos s (List.mem_cons_of_mem r (List.mem_of_mem_filter hs))
    refine List.Pairwise.cons ?_ (ih hposf)
    intro b hb
    have hbf := mergeGreedy_subset (1/5) _ b hb
    have hlt : mergeIoU r b < 1/5 := by
      have := (List.mem_filter.mp hbf).2
      simpa using this
    have hrpos := hpos r (List.mem_cons_self r rest)
    have hbpos := hpos b (List.mem_cons_of_mem r (List.mem_of_mem_filter hbf))
    exact (mergeIoU_lt_iff r b hrpos.1 hrpos.2 hbpos.1 hbpos.2).mp hlt

theorem mergeGreedy_cover (l : List FaceRect)
    (hsorted : List.Sorted (keyGE (fun r => (r.area : ℚ))) l) :
    ∀ s ∈ l, s ∈ mergeGreedy (1/5) l ∨
      ∃ g ∈ mergeGreedy (1/5) l, ¬ (mergeIoU g s < 1/5) ∧ s.area ≤ g.area := by
  induction l using mergeGreedy.induct with
  | overlap_threshold => exact 1/5
  | case1 => simp
  | case2 r rest ih =>
    intro s hs
    rw [mergeGreedy]
    rcases List.mem_cons.mp hs with h | h
    · exact Or.inl (h ▸ List.mem_cons_self _ _)
    · by_cases hf : mergeIoU r s < 1/5
      · have hsf : s ∈ rest.filter (fun s => mergeIoU r s < 1/5) :=
          List.mem_filter.mpr ⟨h, by simpa using hf⟩
        have hsortedf : List.Sorted (keyGE (fun r => (r.area : ℚ)))
            (rest.filter (fun s => mergeIoU r s < 1/5)) :=
          (List.Pairwise.sublist (List.filter_sublist rest)
            (List.sorted_cons.mp hsorted).2)
        rcases ih hsortedf s hsf with hin | ⟨g, hg, hgs⟩
        · exact Or.inl (List.mem_cons_of_mem r hin)
        · exact Or.inr ⟨g, List.mem_cons_of_mem r hg, hgs⟩
      · refine Or.inr ⟨r, List.mem_cons_self _ _, hf, ?_⟩
        have hk := (List.sorted_cons.mp hsorted).1 s h
        simp only [keyGE] at hk
        exact_mod_cast hk

/-- C5.  Consolidator greedy max-area merge: the output of
`_merge_overlapping_faces` is a subset of the candidates in which every
pair overlaps by at most IoU `0.2` (a candidate at exactly `0.2` is
kept, thanks to the `1e-6` in the denominator), and every dropped
candidate overlaps some kept candidate of at least its own area by an
IoU strictly above `0.2`. -/
theorem consolidator_greedy_merge (faces : List FaceRect)
    (hpos : ∀ r ∈ faces, 0 < r.w ∧ 0 < r.h) :
    (∀ r ∈ merge_overlapping_faces faces, r ∈ faces) ∧
    List.Pairwise (fun a b => rectIoU a b ≤ 1/5)
      (merge_overlapping_faces faces) ∧
    (∀ r ∈ faces, r ∈ merge_overlapping_faces faces ∨
      ∃ g ∈ merge_overlapping_faces faces,
        1/5 < rectIoU g r ∧ r.area ≤ g.area) := by
  by_cases hnil : faces = []
  · subst hnil
    simp [merge_overlapping_faces]
  · unfold merge_overlapping_faces
    rw [if_neg hnil]
    have hmemeq : ∀ x, x ∈ sortDescBy (fun r => (r.area : ℚ)) faces ↔ x ∈ faces :=
      mem_sortDescBy _ _
    have hposs : ∀ r ∈ sortDescBy (fun r => (r.area : ℚ)) faces,
        0 < r.w ∧ 0 < r.h := fun r hr => hpos r ((hmemeq r).mp hr)
    refine ⟨?_, mergeGreedy_pairwise _ hposs, ?_⟩
    · intro r hr
      exact (hmemeq r).mp (mergeGreedy_subset _ _ r hr)
    · intro r hr
      rcases mergeGreedy_cover _ (sorted_sortDescBy _ faces) r
        ((hmemeq r).mpr hr) with h | ⟨g, hg, hgs, harea⟩
      · exact Or.inl h
      · refine Or.inr ⟨g, hg, ?_, harea⟩
        have hgpos := hposs g (mergeGreedy_subset _ _ g hg)
        have hrpos := hpos r hr
        exact lt_of_not_le (fun hle =>
          hgs ((mergeIoU_lt_iff g r hgpos.1 hgpos.2 hrpos.1 hrpos.2).mpr hle))

theorem consolidator_greedy_merge_witness :
    (∀ r ∈ ([⟨0, 0, 10, 10⟩, ⟨1, 1, 10, 10⟩, ⟨50, 50, 5, 5⟩] : List FaceRect),
      0 < r.w ∧ 0 < r.h) ∧
    ((∀ r ∈ merge_overlapping_faces
        [⟨0, 0, 10, 10⟩, ⟨1, 1, 10, 10⟩, ⟨50, 50, 5, 5⟩],
        r ∈ ([⟨0, 0, 10, 10⟩, ⟨1, 1, 10, 10⟩, ⟨50, 50, 5, 5⟩] : List FaceRect)) ∧
      List.Pairwise (fun a b => rectIoU a b ≤ 1/5)
        (merge_overlapping_faces
          [⟨0, 0, 10, 10⟩, ⟨1, 1, 10, 10⟩, ⟨50, 50, 5, 5⟩]) ∧
      (∀ r ∈ ([⟨0, 0, 10, 10⟩, ⟨1, 1, 10, 10⟩, ⟨50, 50, 5, 5⟩] : List FaceRect),
        r ∈ merge_overlapping_faces
          [⟨0, 0, 10, 10⟩, ⟨1, 1, 10, 10⟩, ⟨50, 50, 5, 5⟩] ∨
        ∃ g ∈ merge_overlapping_faces
          [⟨0, 0, 10, 10⟩, ⟨1, 1, 10, 10⟩, ⟨50, 50, 5, 5⟩],
          1/5 < rectIoU g r ∧ r.area ≤ g.area)) :=
  ⟨by decide, consolidator_greedy_merge
    [⟨0, 0, 10, 10⟩, ⟨1, 1, 10, 10⟩, ⟨50, 50, 5, 5⟩] (by decide)⟩

/-! ### Sheet non-overlap and bounds invariant -/

/-- Two placed rectangles do not intersect (their interiors are
separated along at least one axis). -/
def placementsDisjoint (a b : Placement) : Prop :=
  a.x + a.w ≤ b.x ∨ b.x + b.w ≤ a.x ∨ a.y + a.h ≤ b.y ∨ b.y + b.h ≤ a.y

/-- A placement lies inside the grid cell of index `k` (padding left
aside, with nonnegative extent). -/
def in_cell (grid : GridLayout) (cell_width cell_height : ℕ) (k : ℕ)
    (p : Placement) : Prop :=
  0 ≤ p.w ∧ 0 ≤ p.h ∧
  (MARGIN_PX : ℤ) + (k % grid.columns : ℕ) * (cell_width : ℤ) ≤ p.x ∧
  p.x + p.w ≤ (MARGIN_PX : ℤ) + (k % grid.columns : ℕ) * (cell_width : ℤ) +
    (cell_width : ℤ) ∧
  (MARGIN_PX : ℤ) + (k / grid.columns : ℕ) * (cell_height : ℤ) ≤ p.y ∧
  p.y + p.h ≤ (MARGIN_PX : ℤ) + (k / grid.columns : ℕ) * (cell_height : ℤ) +
    (cell_height : ℤ)

theorem resize_image_to_fit_bounds (iw ih cw ch : ℕ)
    (hiw : 0 < iw) (hih : 0 < ih) (hcw : 40 ≤ cw) (hch : 40 ≤ ch) :
    0 ≤ (resize_image_to_fit iw ih cw ch).1 ∧
    (resize_image_to_fit iw ih cw ch).1 ≤ (cw : ℤ) - 40 ∧
    0 ≤ (resize_image_to_fit iw ih cw ch).2 ∧
    (resize_image_to_fit iw ih cw ch).2 ≤ (ch : ℤ) - 40 := by
  unfold resize_image_to_fit
  dsimp only
  have htw : (0 : ℤ) ≤ (cw : ℤ) - 2 * 20 := by
    have : (40 : ℤ) ≤ (cw : ℤ) := by exact_mod_cast hcw
    omega
  have hth : (0 : ℤ) ≤ (ch : ℤ) - 2 * 20 := by
    have : (40 : ℤ) ≤ (ch : ℤ) := by exact_mod_cast hch
    omega
  have htwq : (0 : ℚ) ≤ ((cw : ℤ) - 2 * 20 : ℤ) := by exact_mod_cast htw
  have hthq : (0 : ℚ) ≤ ((ch : ℤ) - 2 * 20 : ℤ) := by exact_mod_cast hth
  have hiwq : (0 : ℚ) < (iw : ℚ) := by exact_mod_cast hiw
  have hihq : (0 : ℚ) < (ih : ℚ) := by exact_mod_cast hih
  set tw : ℚ := (((cw : ℤ) - 2 * 20 : ℤ) : ℚ) with htwdef
  set th : ℚ := (((ch : ℤ) - 2 * 20 : ℤ) : ℚ) with hthdef
  set sf : ℚ := min (tw / (iw : ℚ)) (th / (ih : ℚ)) with hsfdef
  have hsf0 : 0 ≤ sf :=
    le_min (div_nonneg htwq (le_of_lt hiwq)) (div_nonneg hthq (le_of_lt hihq))
  have hwle : (iw : ℚ) * sf ≤ tw := by
    have h1 : sf ≤ tw / (iw : ℚ) := min_le_left _ _
    have h2 : (iw : ℚ) * sf ≤ (iw : ℚ) * (tw / (iw : ℚ)) :=
      mul_le_mul_of_nonneg_left h1 (le_of_lt hiwq)
    rwa [mul_div_cancel₀ tw (ne_of_gt hiwq)] at h2
  have hhle : (ih : ℚ) * sf ≤ th := by
    have h1 : sf ≤ th / (ih : ℚ) := min_le_right _ _
    have h2 : (ih : ℚ) * sf ≤ (ih : ℚ) * (th / (ih : ℚ)) :=
      mul_le_mul_of_nonneg_left h1 (le_of_lt hihq)
    rwa [mul_div_cancel₀ th (ne_of_gt hihq)] at h2
  have hw0 : (0 : ℚ) ≤ (iw : ℚ) * sf := mul_nonneg (le_of_lt hiwq) hsf0
  have hh0 : (0 : ℚ) ≤ (ih : ℚ) * sf := mul_nonneg (le_of_lt hihq) hsf0
  refine ⟨pyInt_nonneg hw0, ?_, pyInt_nonneg hh0, ?_⟩
  · rw [pyInt_of_nonneg hw0]
    have := Int.floor_le_floor (α := ℚ) hwle
    rw [htwdef, Int.floor_intCast] at this
    omega
  · rw [pyInt_of_nonneg hh0]
    have := Int.floor_le_floor (α := ℚ) hhle
    rw [hthdef, Int.floor_intCast] at this
    omega

theorem place_image_in_cell (grid : GridLayout) (cw ch : ℕ) (i : ℕ)
    (image : ℕ × ℕ) (him : 0 < image.1 ∧ 0 < image.2)
    (hcw : 40 ≤ cw) (hch : 40 ≤ ch) :
    in_cell grid cw ch i (place_image grid cw ch i image) := by
  obtain ⟨hw0, hwle, hh0, hhle⟩ :=
    resize_image_to_fit_bounds image.1 image.2 cw ch him.1 him.2 hcw hch
  unfold place_image in_cell
  dsimp only
  set nw := (resize_image_to_fit image.1 image.2 cw ch).1 with hnw
  set nh := (resize_image_to_fit image.1 image.2 cw ch).2 with hnh
  have hcwz : (40 : ℤ) ≤ (cw : ℤ) := by exact_mod_cast hcw
  have hchz : (40 : ℤ) ≤ (ch : ℤ) := by exact_mod_cast hch
  have hxoff0 : 0 ≤ Int.fdiv ((cw : ℤ) - nw) 2 :=
    Int.fdiv_nonneg (by omega) (by norm_num)
  have hxoffle : Int.fdiv ((cw : ℤ) - nw) 2 ≤ (cw : ℤ) - nw := by
    rw [Int.fdiv_eq_ediv _ (by norm_num)]
    exact Int.ediv_le_self 2 (by omega)
  have hyoff0 : 0 ≤ Int.fdiv ((ch : ℤ) - nh) 2 :=
    Int.fdiv_nonneg (by omega) (by norm_num)
  have hyoffle : Int.fdiv ((ch : ℤ) - nh) 2 ≤ (ch : ℤ) - nh := by
    rw [Int.fdiv_eq_ediv _ (by norm_num)]
    exact Int.ediv_le_self 2 (by omega)
  refine ⟨hw0, hh0, by omega, by omega, by omega, by omega⟩

theorem arrangeGo_mem_cell (grid : GridLayout) (cw ch : ℕ)
    (hcw : 40 ≤ cw) (hch : 40 ≤ ch) :
    ∀ (imgs : List (ℕ × ℕ)) (i : ℕ),
      (∀ im ∈ imgs, 0 < im.1 ∧ 0 < im.2) →
      ∀ p ∈ arrangeGo grid cw ch i imgs,
        ∃ k, i ≤ k ∧ k / grid.columns < grid.rows ∧ in_cell grid cw ch k p := by
  intro imgs
  induction imgs with
  | nil => intro i _ p hp; simp [arrangeGo] at hp
  | cons im rest ih =>
    intro i hpos p hp
    rw [arrangeGo] at hp
    split at hp
    · simp at hp
    · rename_i hrow
      rcases List.mem_cons.mp hp with hph | hpt
      · refine ⟨i, le_refl i, by omega, ?_⟩
        rw [hph]
        exact place_image_in_cell grid cw ch i im
          (hpos im (List.mem_cons_self im rest)) hcw hch
      · obtain ⟨k, hk1, hk2, hk3⟩ := ih (i + 1)
          (fun x hx => hpos x (List.mem_cons_of_mem im hx)) p hpt
        exact ⟨k, by omega, hk2, hk3⟩

theorem cells_disjoint (grid : GridLayout) (cw ch : ℕ)
    (hc : 0 < grid.columns) (k₁ k₂ : ℕ) (hk : k₁ ≠ k₂)
    (p q : Placement) (h1 : in_cell grid cw ch k₁ p)
    (h2 : in_cell grid cw ch k₂ q) : placementsDisjoint p q := by
  obtain ⟨-, -, hpx1, hpx2, hpy1, hpy2⟩ := h1
  obtain ⟨-, -, hqx1, hqx2, hqy1, hqy2⟩ := h2
  have hsep : ∀ (c₁ c₂ w : ℕ), c₁ < c₂ →
      ((c₁ : ℤ)) * (w : ℤ) + (w : ℤ) ≤ (c₂ : ℤ) * (w : ℤ) := by
    intro c₁ c₂ w hlt
    have h1' : ((c₁ : ℤ) + 1) * (w : ℤ) ≤ (c₂ : ℤ) * (w : ℤ) :=
      mul_le_mul_of_nonneg_right (by exact_mod_cast hlt) (by positivity)
    nlinarith [h1']
  rcases lt_trichotomy (k₁ % grid.columns) (k₂ % grid.columns) with hcc | hcc | hcc
  · exact Or.inl (by have := hsep _ _ cw hcc; omega)
  · rcases lt_trichotomy (k₁ / grid.columns) (k₂ / grid.columns) with hrr | hrr | hrr
    · exact Or.inr (Or.inr (Or.inl (by have := hsep _ _ ch hrr; omega)))
    · exfalso
      apply hk
      have e1 := Nat.div_add_mod k₁ grid.columns
      have e2 := Nat.div_add_mod k₂ grid.columns
      rw [← e1, ← e2, hcc, hrr]
    · exact Or.inr (Or.inr (Or.inr (by have := hsep _ _ ch hrr; omega)))
  · exact Or.inr (Or.inl (by have := hsep _ _ cw hcc; omega))

theorem arrangeGo_pairwise (grid : GridLayout) (cw ch : ℕ)
    (hc : 0 < grid.columns) (hcw : 40 ≤ cw) (hch : 40 ≤ ch) :
    ∀ (imgs : List (ℕ × ℕ)) (i : ℕ),
      (∀ im ∈ imgs, 0 < im.1 ∧ 0 < im.2) →
      List.Pairwise placementsDisjoint (arrangeGo grid cw ch i imgs) := by
  intro imgs
  induction imgs with
  | nil => intro i _; simp [arrangeGo]
  | cons im rest ih =>
    intro i hpos
    rw [arrangeGo]
    split
    · exact List.Pairwise.nil
    · rename_i hrow
      refine List.Pairwise.cons ?_ (ih (i + 1)
        (fun x hx => hpos x (List.mem_cons_of_mem im hx)))
      intro q hq
      obtain ⟨k, hk1, -, hkcell⟩ := arrangeGo_mem_cell grid cw ch hcw hch rest
        (i + 1) (fun x hx => hpos x (List.mem_cons_of_mem im hx)) q hq
      exact cells_disjoint grid cw ch hc i k (by omega) _ q
        (place_image_in_cell grid cw ch i im
          (hpos im (List.mem_cons_self im rest)) hcw hch) hkcell

theorem arrange_invariant (grid : GridLayout) (cw ch : ℕ) (swU shU : ℕ)
    (hc : 0 < grid.columns) (hcw : 40 ≤ cw) (hch : 40 ≤ ch)
    (hcu : grid.columns * cw ≤ swU) (hru : grid.rows * ch ≤ shU)
    (imgs : List (ℕ × ℕ)) (hpos : ∀ im ∈ imgs, 0 < im.1 ∧ 0 < im.2) :
    (∀ p ∈ arrange_images_in_grid imgs grid cw ch,
      (MARGIN_PX : ℤ) ≤ p.x ∧ p.x + p.w ≤ (MARGIN_PX : ℤ) + (swU : ℤ) ∧
      (MARGIN_PX : ℤ) ≤ p.y ∧ p.y + p.h ≤ (MARGIN_PX : ℤ) + (shU : ℤ)) ∧
    List.Pairwise placementsDisjoint (arrange_images_in_grid imgs grid cw ch) := by
  constructor
  · intro p hp
    obtain ⟨k, -, hkrow, hkcell⟩ :=
      arrangeGo_mem_cell grid cw ch hcw hch imgs 0 hpos p hp
    obtain ⟨hw0, hh0, hx1, hx2, hy1, hy2⟩ := hkcell
    have hcol : k % grid.columns < grid.columns := Nat.mod_lt k hc
    have hcolmul : ((k % grid.columns : ℕ) : ℤ) * (cw : ℤ) + (cw : ℤ) ≤
        ((grid.columns : ℕ) : ℤ) * (cw : ℤ) := by
      have h1' : ((k % grid.columns : ℕ) : ℤ) + 1 ≤ (grid.columns : ℤ) := by
        exact_mod_cast hcol
      nlinarith [mul_le_mul_of_nonneg_right h1' (show (0:ℤ) ≤ (cw : ℤ) by positivity)]
    have hrowmul : ((k / grid.columns : ℕ) : ℤ) * (ch : ℤ) + (ch : ℤ) ≤
        ((grid.rows : ℕ) : ℤ) * (ch : ℤ) := by
      have h1' : ((k / grid.columns : ℕ) : ℤ) + 1 ≤ (grid.rows : ℤ) := by
        exact_mod_cast hkrow
      nlinarith [mul_le_mul_of_nonneg_right h1' (show (0:ℤ) ≤ (ch : ℤ) by positivity)]
    have hswu : ((grid.columns : ℕ) : ℤ) * (cw : ℤ) ≤ (swU : ℤ) := by
      exact_mod_cast hcu
    have hshu : ((grid.rows : ℕ) : ℤ) * (ch : ℤ) ≤ (shU : ℤ) := by
      exact_mod_cast hru
    have hcol0 : (0 : ℤ) ≤ ((k % grid.columns : ℕ) : ℤ) * (cw : ℤ) := by positivity
    have hrow0 : (0 : ℤ) ≤ ((k / grid.columns : ℕ) : ℤ) * (ch : ℤ) := by positivity
    refine ⟨by omega, by omega, by omega, by omega⟩
  · exact arrangeGo_pairwise grid cw ch hc hcw hch imgs 0 hpos

/-- C6.  Sheet non-overlap and bounds invariant: for every valid grid
(rows and columns in `[1,10]`) and image list of positive pixel sizes
with at most `rows*columns` entries, the computed placements are pairwise
non-intersecting and lie within the page minus its margin. -/
theorem sheet_placement_invariant (orient : SheetOrient) (grid : GridLayout)
    (images : List (ℕ × ℕ))
    (hr1 : 1 ≤ grid.rows) (hr10 : grid.rows ≤ 10)
    (hc1 : 1 ≤ grid.columns) (hc10 : grid.columns ≤ 10)
    (himg : ∀ im ∈ images, 0 < im.1 ∧ 0 < im.2)
    (hcount : images.length ≤ grid.rows * grid.columns) :
    (∀ p ∈ sheet_placements orient grid images,
      (MARGIN_PX : ℤ) ≤ p.x ∧
      p.x + p.w ≤ ((get_sheet_dimensions orient).1 : ℤ) - MARGIN_PX ∧
      (MARGIN_PX : ℤ) ≤ p.y ∧
      p.y + p.h ≤ ((get_sheet_dimensions orient).2 : ℤ) - MARGIN_PX) ∧
    List.Pairwise placementsDisjoint (sheet_placements orient grid images) := by
  have hcell : ∀ (u : ℕ) (n : ℕ), 1 ≤ n → n ≤ 10 → 2180 ≤ u → 40 ≤ u / n := by
    intro u n h1 h10 hu
    refine (Nat.le_div_iff_mul_le (by omega)).mpr ?_
    nlinarith
  have hdivmul : ∀ (u : ℕ) (n : ℕ), 0 < n → n * (u / n) ≤ u := by
    intro u n hn
    rw [mul_comm]
    exact Nat.div_mul_le_self u n
  cases orient with
  | portrait =>
    have h := arrange_invariant grid
      ((A4_WIDTH_PX - 2 * MARGIN_PX) / grid.columns)
      ((A4_HEIGHT_PX - 2 * MARGIN_PX) / grid.rows)
      (A4_WIDTH_PX - 2 * MARGIN_PX) (A4_HEIGHT_PX - 2 * MARGIN_PX)
      (by omega)
      (hcell _ _ hc1 hc10 (by norm_num [A4_WIDTH_PX, MARGIN_PX]))
      (hcell _ _ hr1 hr10 (by norm_num [A4_HEIGHT_PX, MARGIN_PX]))
      (hdivmul _ _ (by omega)) (hdivmul _ _ (by omega)) images himg
    have heq : sheet_placements SheetOrient.portrait grid images =
        arrange_images_in_grid images grid
          ((A4_WIDTH_PX - 2 * MARGIN_PX) / grid.columns)
          ((A4_HEIGHT_PX - 2 * MARGIN_PX) / grid.rows) := rfl
    rw [heq]
    refine ⟨fun p hp => ?_, h.2⟩
    obtain ⟨h1, h2, h3, h4⟩ := h.1 p hp
    refine ⟨h1, ?_, h3, ?_⟩
    · refine le_trans h2 ?_
      norm_num [A4_WIDTH_PX, MARGIN_PX, get_sheet_dimensions]
    · refine le_trans h4 ?_
      norm_num [A4_HEIGHT_PX, MARGIN_PX, get_sheet_dimensions]
  | landscape =>
    have h := arrange_invariant grid
      ((A4_HEIGHT_PX - 2 * MARGIN_PX) / grid.columns)
      ((A4_WIDTH_PX - 2 * MARGIN_PX) / grid.rows)
      (A4_HEIGHT_PX - 2 * MARGIN_PX) (A4_WIDTH_PX - 2 * MARGIN_PX)
      (by omega)
      (hcell _ _ hc1 hc10 (by norm_num [A4_HEIGHT_PX, MARGIN_PX]))
      (hcell _ _ hr1 hr10 (by norm_num [A4_WIDTH_PX, MARGIN_PX]))
      (hdivmul _ _ (by omega)) (hdivmul _ _ (by omega)) images himg
    have heq : sheet_placements SheetOrient.landscape grid images =
        arrange_images_in_grid images grid
          ((A4_HEIGHT_PX - 2 * MARGIN_PX) / grid.columns)
          ((A4_WIDTH_PX - 2 * MARGIN_PX) / grid.rows) := rfl
    rw [heq]
    refine ⟨fun p hp => ?_, h.2⟩
    obtain ⟨h1, h2, h3, h4⟩ := h.1 p hp
    refine ⟨h1, ?_, h3, ?_⟩
    · refine le_trans h2 ?_
      norm_num [A4_HEIGHT_PX, MARGIN_PX, get_sheet_dimensions]
    · refine le_trans h4 ?_
      norm_num [A4_WIDTH_PX, MARGIN_PX, get_sheet_dimensions]

theorem sheet_placement_invariant_witness :
    (∀ im ∈ ([(100, 100), (200, 50), (30, 80)] : List (ℕ × ℕ)),
      0 < im.1 ∧ 0 < im.2) ∧
    (∀ p ∈ sheet_placements SheetOrient.portrait
        { rows := 2, columns := 2 } [(100, 100), (200, 50), (30, 80)],
      (MARGIN_PX : ℤ) ≤ p.x ∧
      p.x + p.w ≤ ((get_sheet_dimensions SheetOrient.portrait).1 : ℤ) -
        MARGIN_PX ∧
      (MARGIN_PX : ℤ) ≤ p.y ∧
      p.y + p.h ≤ ((get_sheet_dimensions SheetOrient.portrait).2 : ℤ) -
        MARGIN_PX) ∧
    List.Pairwise placementsDisjoint (sheet_placements SheetOrient.portrait
      { rows := 2, columns := 2 } [(100, 100), (200, 50), (30, 80)]) := by
  have h := sheet_placement_invariant SheetOrient.portrait
    { rows := 2, columns := 2 } [(100, 100), (200, 50), (30, 80)]
    (by decide) (by decide) (by decide) (by decide) (by decide) (by decide)
  exact ⟨by decide, h.1, h.2⟩

/-! ### Crop ratio and bounds -/

theorem calc_crop_width_height (img_width img_height ratio_width ratio_height : ℤ)
    (detections : List DetectionResult) (strategy : CropStrategy) :
    (calculate_crop_coordinates img_width img_height ratio_width ratio_height
        detections strategy).width =
      min (if (ratio_width : ℚ) / ratio_height < (img_width : ℚ) / img_height
        then pyInt ((img_height : ℚ) * ((ratio_width : ℚ) / ratio_height))
        else img_width) img_width ∧
    (calculate_crop_coordinates img_width img_height ratio_width ratio_height
        detections strategy).height =
      min (if (ratio_width : ℚ) / ratio_height < (img_width : ℚ) / img_height
        then img_height
        else pyInt ((img_width : ℚ) / ((ratio_width : ℚ) / ratio_height)))
        img_height := by
  unfold calculate_crop_coordinates
  dsimp only
  split <;> exact ⟨rfl, rfl⟩

theorem calc_crop_bounds (img_width img_height ratio_width ratio_height : ℤ)
    (detections : List DetectionResult) (strategy : CropStrategy) :
    0 ≤ (calculate_crop_coordinates img_width img_height ratio_width
        ratio_height detections strategy).x ∧
    (calculate_crop_coordinates img_width img_height ratio_width ratio_height
        detections strategy).x +
      (calculate_crop_coordinates img_width img_height ratio_width ratio_height
        detections strategy).width ≤ img_width ∧
    0 ≤ (calculate_crop_coordinates img_width img_height ratio_width
        ratio_height detections strategy).y ∧
    (calculate_crop_coordinates img_width img_height ratio_width ratio_height
        detections strategy).y +
      (calculate_crop_coordinates img_width img_height ratio_width ratio_height
        detections strategy).height ≤ img_height := by
  unfold calculate_crop_coordinates
  dsimp only
  refine ⟨by omega, by omega, by omega, by omega⟩

/-- C3 (amended).  Crop bounds hold for every input: `0 ≤ x`,
`x + width ≤ W`, `0 ≤ y`, `y + height ≤ H`.  The `< 0.02` ratio
tolerance holds whenever the computed crop height is at least
`50 * max 1 (tw/th)`; for tiny images or extreme ratios the integer
truncation error can exceed the tolerance (see the counterexample). -/
theorem crop_ratio_and_bounds (img_width img_height ratio_width ratio_height : ℤ)
    (detections : List DetectionResult) (strategy : CropStrategy)
    (hW : 0 < img_width) (hH : 0 < img_height)
    (hrw : 0 < ratio_width) (hrh : 0 < ratio_height) :
    (0 ≤ (calculate_crop_coordinates img_width img_height ratio_width
        ratio_height detections strategy).x ∧
     (calculate_crop_coordinates img_width img_height ratio_width ratio_height
        detections strategy).x +
       (calculate_crop_coordinates img_width img_height ratio_width ratio_height
        detections strategy).width ≤ img_width ∧
     0 ≤ (calculate_crop_coordinates img_width img_height ratio_width
        ratio_height detections strategy).y ∧
     (calculate_crop_coordinates img_width img_height ratio_width ratio_height
        detections strategy).y +
       (calculate_crop_coordinates img_width img_height ratio_width ratio_height
        detections strategy).height ≤ img_height) ∧
    (50 * max 1 ((ratio_width : ℚ) / ratio_height) ≤
        ((calculate_crop_coordinates img_width img_height ratio_width
          ratio_height detections strategy).height : ℚ) →
      |((calculate_crop_coordinates img_width img_height ratio_width
          ratio_height detections strategy).width : ℚ) /
        ((calculate_crop_coordinates img_width img_height ratio_width
          ratio_height detections strategy).height : ℚ) -
        (ratio_width : ℚ) / ratio_height| < 1/50) := by
  refine ⟨calc_crop_bounds _ _ _ _ _ _, ?_⟩
  intro hch
  obtain ⟨hwid, hhei⟩ := calc_crop_width_height img_width img_height
    ratio_width ratio_height detections strategy
  set r : ℚ := (ratio_width : ℚ) / ratio_height with hrdef
  have hr0 : 0 < r := div_pos (by exact_mod_cast hrw) (by exact_mod_cast hrh)
  have hHq : (0 : ℚ) < (img_height : ℚ) := by exact_mod_cast hH
  have hWq : (0 : ℚ) < (img_width : ℚ) := by exact_mod_cast hW
  have hmax1 : (1 : ℚ) ≤ max 1 r := le_max_left 1 r
  have hmaxr : r ≤ max 1 r := le_max_right 1 r
  have hmax0 : (0 : ℚ) < max 1 r := lt_of_lt_of_le one_pos hmax1
  rw [hwid, hhei]
  rw [hhei] at hch
  by_cases hbranch : r < (img_width : ℚ) / img_height
  · -- image wider than the target ratio: full height, width trimmed
    simp only [if_pos hbranch] at hch ⊢
    rw [min_self] at hch ⊢
    have hprod0 : (0 : ℚ) ≤ (img_height : ℚ) * r :=
      mul_nonneg (le_of_lt hHq) (le_of_lt hr0)
    have hpy : pyInt ((img_height : ℚ) * r) = ⌊(img_height : ℚ) * r⌋ :=
      pyInt_of_nonneg hprod0
    have hHrW : (img_height : ℚ) * r < (img_width : ℚ) := by
      have := (lt_div_iff₀ hHq).mp hbranch
      linarith
    have hfloorW : ⌊(img_height : ℚ) * r⌋ < img_width :=
      Int.floor_lt.mpr (by exact_mod_cast hHrW)
    have hmin : min (pyInt ((img_height : ℚ) * r)) img_width =
        pyInt ((img_height : ℚ) * r) := by
      rw [hpy]
      exact min_eq_left (le_of_lt hfloorW)
    rw [hmin, hpy]
    have h50 : (50 : ℚ) ≤ (img_height : ℚ) := by
      have : (50 : ℚ) * 1 ≤ 50 * max 1 r := by
        exact mul_le_mul_of_nonneg_left hmax1 (by norm_num)
      linarith
    have hfl : ((⌊(img_height : ℚ) * r⌋ : ℤ) : ℚ) ≤ (img_height : ℚ) * r :=
      Int.floor_le _
    have hfg : (img_height : ℚ) * r <
        ((⌊(img_height : ℚ) * r⌋ : ℤ) : ℚ) + 1 := Int.lt_floor_add_one _
    have hle : ((⌊(img_height : ℚ) * r⌋ : ℤ) : ℚ) / (img_height : ℚ) ≤ r := by
      rw [div_le_iff₀ hHq]
      linarith
    have hgt : r - ((⌊(img_height : ℚ) * r⌋ : ℤ) : ℚ) / (img_height : ℚ) <
        1 / (img_height : ℚ) := by
      rw [sub_lt_iff_lt_add, div_add_div_same, lt_div_iff₀ hHq]
      linarith
    have hHH : 1 / (img_height : ℚ) ≤ 1 / 50 :=
      one_div_le_one_div_of_le (by norm_num) h50
    rw [abs_sub_comm, abs_of_nonneg (sub_nonneg.mpr hle)]
    linarith
  · -- image at most as wide as the target ratio: full width, height trimmed
    simp only [if_neg hbranch] at hch ⊢
    rw [min_self]
    have hq0 : (0 : ℚ) ≤ (img_width : ℚ) / r :=
      div_nonneg (le_of_lt hWq) (le_of_lt hr0)
    have hpy : pyInt ((img_width : ℚ) / r) = ⌊(img_width : ℚ) / r⌋ :=
      pyInt_of_nonneg hq0
    have hWrH : (img_width : ℚ) / r ≤ (img_height : ℚ) := by
      push_neg at hbranch
      have h1 : (img_width : ℚ) ≤ r * img_height := by
        have := (div_le_iff₀ hHq).mp hbranch
        linarith
      rw [div_le_iff₀ hr0]
      linarith
    have hfloorH : ⌊(img_width : ℚ) / r⌋ ≤ img_height := by
      have := Int.floor_le_floor (α := ℚ) hWrH
      rwa [Int.floor_intCast] at this
    have hmin : min (pyInt ((img_width : ℚ) / r)) img_height =
        pyInt ((img_width : ℚ) / r) := by
      rw [hpy]
      exact min_eq_left hfloorH
    rw [hmin, hpy] at hch ⊢
    set c : ℚ := ((⌊(img_width : ℚ) / r⌋ : ℤ) : ℚ) with hcdef
    have hc50 : 50 * max 1 r ≤ c := hch
    have hc0 : (0 : ℚ) < c := by nlinarith
    have hcle : c ≤ (img_width : ℚ) / r := by
      rw [hcdef]
      exact Int.floor_le _
    have hcgt : (img_width : ℚ) / r < c + 1 := by
      rw [hcdef]
      exact Int.lt_floor_add_one _
    have hrle : r ≤ (img_width : ℚ) / c := by
      rw [le_div_iff₀ hc0]
      have := (le_div_iff₀ hr0).mp hcle
      linarith
    have hWlt : (img_width : ℚ) < (c + 1) * r := by
      have := (div_lt_iff₀ hr0).mp hcgt
      linarith
    have hsub : (img_width : ℚ) / c - r < r / c := by
      rw [sub_lt_iff_lt_add, div_add' _ _ _ (ne_of_gt hc0), lt_div_iff₀ hc0]
      have hWc : (img_width : ℚ) / c * c = img_width :=
        div_mul_cancel₀ _ (ne_of_gt hc0)
      linarith [hWc, hWlt, (by ring : (c + 1) * r = c * r + r)]
    have hrc : r / c ≤ 1 / 50 := by
      have h1 : r / c ≤ (max 1 r) / (50 * max 1 r) :=
        div_le_div₀ (le_of_lt hmax0) hmaxr (by positivity) hc50
      have h2 : (max 1 r) / (50 * max 1 r) = 1 / 50 := by
        rw [div_eq_div_iff (ne_of_gt (by positivity))
          (by norm_num : (50 : ℚ) ≠ 0)]
        ring
      linarith
    rw [abs_of_nonneg (sub_nonneg.mpr hrle)]
    linarith

/-- The claim's universally-quantified `< 0.02` tolerance fails on the
code: a 1×2 image with target ratio 3:4 is cropped to a 1×1 rectangle
whose ratio misses 3/4 by 0.25. -/
theorem crop_ratio_counterexample :
    calculate_crop_coordinates 1 2 3 4 [] CropStrategy.center =
      { x := 0, y := 0, width := 1, height := 1 } ∧
    ¬ (|((calculate_crop_coordinates 1 2 3 4 []
          CropStrategy.center).width : ℚ) /
        ((calculate_crop_coordinates 1 2 3 4 []
          CropStrategy.center).height : ℚ) - (3 : ℚ) / 4| < 1/50) := by
  have h : calculate_crop_coordinates 1 2 3 4 [] CropStrategy.center =
      { x := 0, y := 0, width := 1, height := 1 } := by
    simp only [calculate_crop_coordinates]
    norm_num [pyInt]
    decide
  refine ⟨h, ?_⟩
  rw [h]
  norm_num
  rw [abs_of_nonneg (by norm_num : (0 : ℚ) ≤ 1/4)]
  norm_num

theorem crop_ratio_and_bounds_witness :
    0 ≤ (calculate_crop_coordinates 800 600 16 9 [] CropStrategy.center).x ∧
    |((calculate_crop_coordinates 800 600 16 9 []
        CropStrategy.center).width : ℚ) /
      ((calculate_crop_coordinates 800 600 16 9 []
        CropStrategy.center).height : ℚ) - (16 : ℚ) / 9| < 1/50 := by
  have h := crop_ratio_and_bounds 800 600 16 9 [] CropStrategy.center
    (by norm_num) (by norm_num) (by norm_num) (by norm_num)
  refine ⟨h.1.1, h.2 ?_⟩
  have he : (calculate_crop_coordinates 800 600 16 9 []
      CropStrategy.center).height = 450 := by
    simp only [calculate_crop_coordinates]
    norm_num [pyInt]
  rw [he]
  push_cast
  rw [max_eq_right (by norm_num : (1 : ℚ) ≤ 16 / 9)]
  norm_num

end PixelForge
